import Mathlib

/-!
# NEUROSYSTEM front-end scripts: table filter and sort, counter animation, statistics cards,
tax computation and session total

A shallow embedding of the functions of `static/js/dashboard.js` and
`static/js/financeiro.js` that carry logic, followed by theorems about them.

Conventions of the embedding.

* A JavaScript string is a `List Char` (a sequence of code points; lone surrogates are not
  representable).
* A JavaScript number is a `JSNum`: `NaN`, the two infinities, or an exact rational.  Arithmetic is
  exact: no rounding takes place, and the two zeros are identified.
* Built-ins whose result depends on Unicode tables, on the locale or on the decimal rendering of
  a number (`toLowerCase`, `localeCompare`, `Intl.NumberFormat`, `toFixed`, number to string) are
  fields of `Host`, and so is `querySelector` on selector texts outside the fragment of CSS that
  is modelled.
* A function that mutates the DOM is a function from the state before to the state after; one that
  can throw returns an `Outcome`, which keeps the state reached at the point of the throw.
* `Array.prototype.sort` is a stable insertion sort; for a consistent comparator this is the
  result of every sort the language allows.
-/

namespace NeuroSystem

/-! ## Strings -/

/-- A JavaScript string, as its list of code points. -/
abbrev JSString := List Char

/-- The method `String.prototype.includes`: `term` occurs in `text` as a contiguous block. -/
def includes : JSString → JSString → Bool
  | [], term => term.isPrefixOf []
  | c :: cs, term => term.isPrefixOf (c :: cs) || includes cs term

/-- White space and line terminators of ECMAScript, the characters `trim` and `parseFloat` skip. -/
def isJSWhiteSpace (c : Char) : Bool :=
  let n := c.toNat
  n == 0x09 || n == 0x0A || n == 0x0B || n == 0x0C || n == 0x0D || n == 0x20 || n == 0xA0 ||
  n == 0x1680 || (0x2000 ≤ n && n ≤ 0x200A) || n == 0x2028 || n == 0x2029 || n == 0x202F ||
  n == 0x205F || n == 0x3000 || n == 0xFEFF

/-- The method `String.prototype.trim`. -/
def trim (s : JSString) : JSString :=
  ((s.dropWhile isJSWhiteSpace).reverse.dropWhile isJSWhiteSpace).reverse

/-- The regular-expression class `\d` (without the unicode flag): the ten ASCII digits. -/
def isDigit (c : Char) : Bool := 48 ≤ c.toNat && c.toNat ≤ 57

/-- The call `s.replace(/[^\d.-]/g, '')`: keep digits, full stops and hyphens only. -/
def stripNonNumeric (s : JSString) : JSString :=
  s.filter (fun c => isDigit c || c == '.' || c == '-')

/-! ## Numbers -/

/-- A JavaScript number in exact arithmetic. -/
inductive JSNum where
  | nan : JSNum
  | negInf : JSNum
  | fin (q : ℚ) : JSNum
  | posInf : JSNum
deriving DecidableEq

namespace JSNum

/-- The global function `isNaN` on a number. -/
def isNaN : JSNum → Bool
  | nan => true
  | _ => false

/-- Unary minus. -/
def neg : JSNum → JSNum
  | nan => nan
  | negInf => posInf
  | fin q => fin (-q)
  | posInf => negInf

/-- The operator `+` on numbers. -/
def add : JSNum → JSNum → JSNum
  | nan, _ => nan
  | _, nan => nan
  | posInf, negInf => nan
  | negInf, posInf => nan
  | posInf, _ => posInf
  | negInf, _ => negInf
  | fin _, posInf => posInf
  | fin _, negInf => negInf
  | fin a, fin b => fin (a + b)

/-- The operator `-` on numbers. -/
def sub (a b : JSNum) : JSNum := add a (neg b)

/-- An infinity of the given sign (`true` for the negative one). -/
def infOfSign (negative : Bool) : JSNum := if negative then negInf else posInf

/-- The operator `*` on numbers. -/
def mul : JSNum → JSNum → JSNum
  | nan, _ => nan
  | _, nan => nan
  | fin a, fin b => fin (a * b)
  | fin a, posInf => if a = 0 then nan else infOfSign (decide (a < 0))
  | fin a, negInf => if a = 0 then nan else infOfSign (decide (0 < a))
  | posInf, fin b => if b = 0 then nan else infOfSign (decide (b < 0))
  | negInf, fin b => if b = 0 then nan else infOfSign (decide (0 < b))
  | posInf, posInf => posInf
  | negInf, negInf => posInf
  | posInf, negInf => negInf
  | negInf, posInf => negInf

/-- The operator `/` on numbers; a zero divisor counts as `+0`. -/
def div : JSNum → JSNum → JSNum
  | nan, _ => nan
  | _, nan => nan
  | fin a, fin b =>
      if b = 0 then (if a = 0 then nan else infOfSign (decide (a < 0))) else fin (a / b)
  | fin _, posInf => fin 0
  | fin _, negInf => fin 0
  | posInf, fin b => infOfSign (decide (b < 0))
  | negInf, fin b => infOfSign (decide (0 ≤ b))
  | posInf, posInf => nan
  | posInf, negInf => nan
  | negInf, posInf => nan
  | negInf, negInf => nan

/-- The function `Math.floor`. -/
def floor : JSNum → JSNum
  | fin q => fin (⌊q⌋ : ℤ)
  | x => x

/-- The test `v > 0`, false for `NaN`. -/
def isPos : JSNum → Bool
  | fin q => decide (0 < q)
  | posInf => true
  | _ => false

/-- The test `v < 0`, false for `NaN`. -/
def isNeg : JSNum → Bool
  | fin q => decide (q < 0)
  | negInf => true
  | _ => false

/-- The order of the numbers that are not `NaN`: `-Infinity`, the rationals, `Infinity`. -/
def le : JSNum → JSNum → Prop
  | nan, _ => False
  | _, nan => False
  | negInf, _ => True
  | _, posInf => True
  | fin a, fin b => a ≤ b
  | fin _, negInf => False
  | posInf, fin _ => False
  | posInf, negInf => False

instance decidableLe (a b : JSNum) : Decidable (le a b) := by
  cases a <;> cases b <;> simp only [le] <;> infer_instance

end JSNum

/-! ## `parseFloat` -/

/-- The value of a run of decimal digits read as a natural number. -/
def digitsValue (ds : JSString) : ℕ :=
  ds.foldl (fun acc c => 10 * acc + (c.toNat - 48)) 0

/-- The exponent part of a `StrDecimalLiteral` at the head of `s`: `e` or `E`, an optional sign and
at least one digit.  Without such a part the exponent is `0`. -/
def exponentPart (s : JSString) : ℤ :=
  match s with
  | [] => 0
  | c :: rest =>
    if c == 'e' || c == 'E' then
      match rest with
      | [] => 0
      | d :: rest2 =>
        if d == '-' then
          (if (rest2.takeWhile isDigit).isEmpty then 0
           else - (digitsValue (rest2.takeWhile isDigit) : ℤ))
        else if d == '+' then (digitsValue (rest2.takeWhile isDigit) : ℤ)
        else (digitsValue ((d :: rest2).takeWhile isDigit) : ℤ)
    else 0

/-- The unsigned part of a `StrDecimalLiteral`: `Infinity`, or digits with an optional fraction and
an optional exponent, read from the longest prefix of `s` that has this form.  `none` when no prefix
has it. -/
def parseUnsigned (s : JSString) : Option JSNum :=
  if "Infinity".toList.isPrefixOf s then some JSNum.posInf
  else
    let intDigits := s.takeWhile isDigit
    let rest := s.dropWhile isDigit
    match rest with
    | '.' :: afterDot =>
      let fracDigits := afterDot.takeWhile isDigit
      if intDigits.isEmpty && fracDigits.isEmpty then none
      else
        let mantissa : ℚ :=
          (digitsValue intDigits : ℚ) + (digitsValue fracDigits : ℚ) / (10 : ℚ) ^ fracDigits.length
        some (JSNum.fin (mantissa * (10 : ℚ) ^ exponentPart (afterDot.dropWhile isDigit)))
    | _ =>
      if intDigits.isEmpty then none
      else some (JSNum.fin ((digitsValue intDigits : ℚ) * (10 : ℚ) ^ exponentPart rest))

/-- The global function `parseFloat` on a string: skip leading white space, read the longest prefix
that is a `StrDecimalLiteral`, and return its value, or `NaN` when there is no such prefix.

The value is the exact decimal value, where the code has the nearest double: the two agree when
the value is a double, as every integer of magnitude up to `2^53` is. -/
def parseFloat (s : JSString) : JSNum :=
  match s.dropWhile isJSWhiteSpace with
  | '-' :: rest => ((parseUnsigned rest).map JSNum.neg).getD JSNum.nan
  | '+' :: rest => (parseUnsigned rest).getD JSNum.nan
  | rest => (parseUnsigned rest).getD JSNum.nan

/-! ## The host environment -/

/-- The built-ins of the browser that the scripts call and that this development leaves abstract. -/
structure Host where
  /-- The method `String.prototype.toLowerCase`. -/
  toLowerCase : JSString → JSString
  /-- The method `String.prototype.localeCompare`: negative, zero or positive. -/
  localeCompare : JSString → JSString → ℤ
  /-- The function `formatCurrency` of both scripts, a call of `Intl.NumberFormat` for `pt-BR`. -/
  formatCurrency : JSNum → JSString
  /-- The method `Number.prototype.toFixed` with argument `2`. -/
  toFixed2 : JSNum → JSString
  /-- The conversion of a number to a string. -/
  numberToString : JSNum → JSString
  /-- The method `querySelector` on a selector text outside the fragment modelled below, given
  the `data-sort` attributes of the `th` elements of a table: `none` for a `SyntaxError`, else the
  index of the element found, if any. -/
  querySelectorTh : JSString → List (Option JSString) → Option (Option ℕ)

/-! ## Tables -/

/-- A header cell of a table, an element `th`. -/
structure Th where
  /-- The attribute `data-sort`, when present. -/
  dataSort : Option JSString
  /-- Whether the class list contains `sort-asc`. -/
  sortAsc : Bool
  /-- Whether the class list contains `sort-desc`. -/
  sortDesc : Bool
deriving DecidableEq

/-- A row of a table body, an element `tr`. -/
structure Row where
  /-- The `textContent` of each element of `cells`. -/
  cells : List JSString
  /-- The `textContent` of the row. -/
  textContent : JSString
  /-- The inline style property `display`. -/
  display : JSString
deriving DecidableEq

/-- A `table` element.  The `th` elements are taken to lie outside the rows of the first `tbody`,
and a row holds no nested table. -/
structure Table where
  /-- The `th` elements of the table in document order. -/
  ths : List Th
  /-- The `tbody` elements in document order, each with its rows. -/
  tbodies : List (List Row)
  /-- The attribute `data-sort-order`, read and written through `dataset.sortOrder`. -/
  sortOrder : Option JSString
deriving DecidableEq

/-- The result of a call that may throw: the state reached and whether the call threw. -/
structure Outcome (σ : Type) where
  state : σ
  threw : Bool

/-- The rows selected by `table.querySelectorAll('tbody tr')`. -/
def Table.bodyRows (table : Table) : List Row := table.tbodies.flatten

/-- The body of the callback of `filterTable` on one row. -/
def filterRow (host : Host) (term : JSString) (row : Row) : Row :=
  let text := host.toLowerCase row.textContent
  { row with display := if includes text term then "".toList else "none".toList }

/-- The function `filterTable` of `dashboard.js`. -/
def filterTable (host : Host) (table : Table) (searchTerm : JSString) : Table :=
  let term := host.toLowerCase searchTerm
  { table with tbodies := table.tbodies.map (fun rows => rows.map (filterRow host term)) }

/-- The body rows that are displayed: those whose `display` is not `none`. -/
def visibleRows (table : Table) : List Row :=
  table.bodyRows.filter (fun row => row.display != "none".toList)

/-! ## Selectors -/

/-- The input preprocessing of CSS, with a flag that tells whether the character before was a
carriage return: carriage return, form feed and the pair of a carriage return and a line feed become
one line feed; the null character becomes U+FFFD. -/
def cssPreprocessFrom (afterCR : Bool) : JSString → JSString
  | [] => []
  | c :: cs =>
    if c.toNat == 0x0A && afterCR then cssPreprocessFrom false cs
    else if c.toNat == 0x0D then '\n' :: cssPreprocessFrom true cs
    else if c.toNat == 0x0C then '\n' :: cssPreprocessFrom false cs
    else if c.toNat == 0 then Char.ofNat 0xFFFD :: cssPreprocessFrom false cs
    else c :: cssPreprocessFrom false cs

/-- The input preprocessing of CSS on a whole text. -/
def cssPreprocess (s : JSString) : JSString := cssPreprocessFrom false s

/-- The value of a hexadecimal digit, if the character is one. -/
def hexValue (c : Char) : Option ℕ :=
  let n := c.toNat
  if 48 ≤ n && n ≤ 57 then some (n - 48)
  else if 65 ≤ n && n ≤ 70 then some (n - 55)
  else if 97 ≤ n && n ≤ 102 then some (n - 87)
  else none

/-- The code point an escape with hexadecimal value `n` stands for. -/
def cssEscapedCodePoint (n : ℕ) : Char :=
  if n == 0 || (0xD800 ≤ n && n ≤ 0xDFFF) || 0x10FFFF < n then Char.ofNat 0xFFFD else Char.ofNat n

/-- The states of the CSS tokenizer while it consumes a string token delimited by `"`. -/
inductive CssStringState where
  /-- Inside the string; the field is the value read so far. -/
  | normal (acc : JSString)
  /-- Right after a backslash. -/
  | escape (acc : JSString)
  /-- Inside a hexadecimal escape of value `n` with `k` digits read. -/
  | hex (acc : JSString) (n k : ℕ)
  /-- The closing quote has been read. -/
  | closed (acc : JSString)
  /-- An unescaped newline has been met: the token is a bad string. -/
  | bad
deriving DecidableEq

/-- One step of the CSS tokenizer inside a string token delimited by `"`. -/
def cssStringStep (st : CssStringState) (c : Char) : CssStringState :=
  match st with
  | .normal acc =>
    if c == '"' then .closed acc
    else if c == '\n' then .bad
    else if c == '\\' then .escape acc
    else .normal (acc ++ [c])
  | .escape acc =>
    if c == '\n' then .normal acc
    else match hexValue c with
      | some v => .hex acc v 1
      | none => .normal (acc ++ [c])
  | .hex acc n k =>
    match hexValue c with
    | some v =>
      if k < 6 then .hex acc (16 * n + v) (k + 1)
      else .normal (acc ++ [cssEscapedCodePoint n, c])
    | none =>
      let acc1 := acc ++ [cssEscapedCodePoint n]
      if c == '\n' || c == '\t' || c == ' ' then .normal acc1
      else if c == '"' then .closed acc1
      else if c == '\\' then .escape acc1
      else .normal (acc1 ++ [c])
  | .closed acc => .closed acc
  | .bad => .bad

/-- What the text `th[data-sort="${column}"]` is as a selector. -/
inductive SortSelector where
  /-- The selector of the `th` elements whose attribute `data-sort` is exactly `value`. -/
  | attrEquals (value : JSString)
  /-- Not a selector: `querySelector` throws a `SyntaxError`. -/
  | invalid
  /-- A text outside the fragment modelled here. -/
  | other
deriving DecidableEq

/-- Whether a state of the tokenizer is `closed`. -/
def CssStringState.isClosed : CssStringState → Bool
  | .closed _ => true
  | _ => false

/-- Run the tokenizer over the characters of the column key, which follow the opening quote;
stop with `none` when the string token closes before the key is used up. -/
def cssStringRun : CssStringState → JSString → Option CssStringState
  | st, [] => some st
  | st, c :: cs =>
    match cssStringStep st c with
    | .closed _ => none
    | .bad => some .bad
    | st1 => cssStringRun st1 cs

/-- Classify the template literal of `sortTable`, `th[data-sort="${column}"]`: the characters of
`column` are read as the content of a CSS string, and the text is in the fragment when that string
ends at the quote written after `column`. -/
def sortSelector (column : JSString) : SortSelector :=
  match cssStringRun (.normal []) (cssPreprocess column) with
  | some (.normal acc) => .attrEquals acc
  | some (.hex acc n _) => .attrEquals (acc ++ [cssEscapedCodePoint n])
  | some .bad => .invalid
  | _ => .other

/-! ## `parseInt` -/

/-- The value of a run of hexadecimal digits read as a natural number. -/
def hexDigitsValue (hs : JSString) : ℕ :=
  hs.foldl (fun acc c => 16 * acc + (hexValue c).getD 0) 0

/-- The digits of `parseInt` after the sign, with the radix left undefined: radix 16 after a
prefix `0x` or `0X`, radix 10 otherwise; the longest run of digits of the radix is read, and
`NaN` is the result when that run is empty. -/
def parseIntUnsigned (s : JSString) : JSNum :=
  let decimal : JSNum :=
    if (s.takeWhile isDigit).isEmpty then JSNum.nan
    else JSNum.fin (digitsValue (s.takeWhile isDigit) : ℚ)
  match s with
  | '0' :: x :: rest =>
    if x == 'x' || x == 'X' then
      (if (rest.takeWhile (fun c => (hexValue c).isSome)).isEmpty then JSNum.nan
       else JSNum.fin (hexDigitsValue (rest.takeWhile (fun c => (hexValue c).isSome)) : ℚ))
    else decimal
  | _ => decimal

/-- The global function `parseInt` on a string, without a radix: skip leading white space, read
an optional sign, then the digits. -/
def parseInt (s : JSString) : JSNum :=
  match s.dropWhile isJSWhiteSpace with
  | '-' :: rest => (parseIntUnsigned rest).neg
  | '+' :: rest => parseIntUnsigned rest
  | rest => parseIntUnsigned rest

/-! ## Sorting a table -/

/-- The method `Array.prototype.findIndex`, with `none` for the result `-1`. -/
def findIndex {α : Type} (p : α → Bool) : List α → Option ℕ
  | [] => none
  | a :: l => if p a then some 0 else (findIndex p l).map (· + 1)

/-- Apply `f` to the element at position `i`, if there is one. -/
def modifyAt {α : Type} (f : α → α) : ℕ → List α → List α
  | _, [] => []
  | 0, a :: l => f a :: l
  | i + 1, a :: l => a :: modifyAt f i l

/-- Insert `a` in front of the first element that the comparator does not put before `a`. -/
def sortedInsert {α : Type} (cmp : α → α → JSNum) (a : α) : List α → List α
  | [] => [a]
  | b :: l => if (cmp a b).isPos then b :: sortedInsert cmp a l else a :: b :: l

/-- The method `Array.prototype.sort` with a comparator, as a stable insertion sort: `a` goes
after `b` when `cmp a b > 0`, and a result of `0` or `NaN` keeps the order of the array.  For a
consistent comparator every stable sort returns this list.  For a comparator that is not
consistent the language leaves the order to the implementation, and this list need not be the one
an engine returns: the statements on the order of the rows are made for columns whose cells all
read as numbers, where the comparator is consistent. -/
def arraySort {α : Type} (cmp : α → α → JSNum) : List α → List α
  | [] => []
  | a :: l => sortedInsert cmp a (arraySort cmp l)

/-- The expression `row.cells[headerIndex].textContent.trim()`, for a row that has the cell. -/
def cellValue (headerIndex : ℕ) (row : Row) : JSString :=
  trim (row.cells.getD headerIndex [])

/-- The number the comparator of `sortTable` reads in a row:
`parseFloat(value.replace(/[^\d.-]/g, ''))`. -/
def cellNumber (headerIndex : ℕ) (row : Row) : JSNum :=
  parseFloat (stripNonNumeric (cellValue headerIndex row))

/-- The comparator `sortTable` passes to `rows.sort`. -/
def compareRows (host : Host) (isAscending : Bool) (headerIndex : ℕ) (a b : Row) : JSNum :=
  let aValue := cellValue headerIndex a
  let bValue := cellValue headerIndex b
  let aNum := parseFloat (stripNonNumeric aValue)
  let bNum := parseFloat (stripNonNumeric bValue)
  if !aNum.isNaN && !bNum.isNaN then
    (if isAscending then aNum.sub bNum else bNum.sub aNum)
  else
    JSNum.fin (if isAscending then host.localeCompare aValue bValue
      else host.localeCompare bValue aValue)

/-- The loop that removes `sort-asc` and `sort-desc` from every `th[data-sort]`. -/
def clearSortIndicators (ths : List Th) : List Th :=
  ths.map (fun th => if th.dataSort.isSome then { th with sortAsc := false, sortDesc := false }
    else th)

/-- The call `classList.add(isAscending ? 'sort-asc' : 'sort-desc')`. -/
def addSortIndicator (isAscending : Bool) (th : Th) : Th :=
  if isAscending then { th with sortAsc := true } else { th with sortDesc := true }

/-- The call ``table.querySelector(`th[data-sort="${column}"]`)``: `none` for a `SyntaxError`,
else the index of the first `th` that matches, if any. -/
def querySortHeader (host : Host) (ths : List Th) (column : JSString) : Option (Option ℕ) :=
  match sortSelector column with
  | .attrEquals value => some (findIndex (fun th => th.dataSort == some value) ths)
  | .invalid => none
  | .other =>
    host.querySelectorTh ("th[data-sort=\"".toList ++ column ++ "\"]".toList)
      (ths.map (fun th => th.dataSort))

/-- The direction a call of `sortTable` takes: `table.dataset.sortOrder !== 'asc'`. -/
def isAscending (table : Table) : Bool := table.sortOrder != some "asc".toList

/-- The function `sortTable` of `dashboard.js`.

A table without `tbody` makes `tbody.querySelectorAll` throw.  A sort of two rows or more calls the
comparator on every row, so it throws when a row has no cell at `headerIndex`; the array that was
being sorted is a copy, and the body is as before. -/
def sortTable (host : Host) (table : Table) (column : JSString) : Outcome Table :=
  match table.tbodies with
  | [] => ⟨table, true⟩
  | rows :: otherBodies =>
    match findIndex (fun th => th.dataSort == some column) table.ths with
    | none => ⟨table, false⟩
    | some headerIndex =>
      let ascending := isAscending table
      let table1 : Table :=
        { table with sortOrder := some (if ascending then "asc".toList else "desc".toList) }
      if 2 ≤ rows.length && rows.any (fun row => row.cells.length ≤ headerIndex) then
        ⟨table1, true⟩
      else
        let sorted := arraySort (compareRows host ascending headerIndex) rows
        let table2 : Table :=
          { table1 with tbodies := sorted :: otherBodies, ths := clearSortIndicators table1.ths }
        match querySortHeader host table2.ths column with
        | none => ⟨table2, true⟩
        | some none => ⟨table2, false⟩
        | some (some i) =>
          ⟨{ table2 with ths := modifyAt (addSortIndicator ascending) i table2.ths }, false⟩

/-- The state after a sequence of calls of `sortTable`, one per column key of the list; a call that
throws leaves the state it had reached. -/
def sortTableAll (host : Host) (table : Table) (columns : List JSString) : Table :=
  columns.foldl (fun t column => (sortTable host t column).state) table

/-! ## The counter animation -/

/-- The function `easeOutQuart` of `dashboard.js`: `--t` decrements `t` and yields the new value,
which the three later factors read. -/
def easeOutQuart (t : ℚ) : ℚ :=
  let t1 := t - 1
  1 - t1 * t1 * t1 * t1

/-- The variables the closure `updateNumber` captures. -/
structure Animation where
  finalValue : JSString
  numericValue : JSNum
  startTime : ℚ

/-- The animated element and the frame request: its `textContent`, and whether a call of
`updateNumber` is pending at `requestAnimationFrame`. -/
structure Counter where
  textContent : JSString
  frameRequested : Bool
deriving DecidableEq

/-- The function `animateNumber` of `dashboard.js` up to its return, called at time `now` (the
value of `performance.now()`): `none` when it returns at the `isNaN` test, else the closure it hands
to `requestAnimationFrame`. -/
def animateNumber (now : ℚ) (finalValue : JSString) : Option Animation :=
  let numericValue := parseFloat (stripNonNumeric finalValue)
  if numericValue.isNaN then none
  else some { finalValue := finalValue, numericValue := numericValue, startTime := now }

/-- The state of the element and of the frame request when `animateNumber` returns. -/
def animateNumberStart (now : ℚ) (textContent finalValue : JSString) : Counter :=
  match animateNumber now finalValue with
  | none => { textContent := textContent, frameRequested := false }
  | some _ => { textContent := textContent, frameRequested := true }

/-- The effect of a call `animateNumber(element, finalValue)` on an element in any state: nothing
when the call returns at the `isNaN` test, else a frame request is added. -/
def animateCounter (now : ℚ) (counter : Counter) (finalValue : JSString) : Counter :=
  match animateNumber now finalValue with
  | none => counter
  | some _ => { counter with frameRequested := true }

/-- The closure `updateNumber`, run for the frame at `currentTime`: the text it leaves in the
element and whether it requests another frame. -/
def updateNumber (host : Host) (anim : Animation) (currentTime : ℚ) : Counter :=
  let duration : ℚ := 1000
  let startValue : JSNum := JSNum.fin 0
  let elapsed := currentTime - anim.startTime
  let progress := min (elapsed / duration) 1
  let currentValue :=
    startValue.add ((anim.numericValue.sub startValue).mul (JSNum.fin (easeOutQuart progress)))
  let shown :=
    if includes anim.finalValue "R$".toList then "R$ ".toList ++ host.toFixed2 currentValue
    else host.numberToString currentValue.floor
  if progress < 1 then { textContent := shown, frameRequested := true }
  else { textContent := anim.finalValue, frameRequested := false }

/-- The browser delivers one animation frame at `currentTime`: the pending callback runs, if there
is one. -/
def frame (host : Host) (anim : Animation) (counter : Counter) (currentTime : ℚ) : Counter :=
  if counter.frameRequested then updateNumber host anim currentTime else counter

/-- The browser delivers the frames of the list in order. -/
def runFrames (host : Host) (anim : Animation) (counter : Counter) (times : List ℚ) : Counter :=
  times.foldl (frame host anim) counter

/-! ## The statistics cards -/

/-- A statistics card, an element with the attribute `data-stat`: its first `h3` descendant, if it
has one, as the animated element it is.  Cards do not share an `h3`. -/
structure StatCard where
  h3 : Option Counter
deriving DecidableEq

/-- The function `updateStatistics` of `dashboard.js` on the cards that
`document.querySelectorAll('[data-stat]')` selects, called at time `now`.

On a card without `h3`, `card.querySelector('h3')` is `null` and reading its `textContent` throws;
the throw leaves the `forEach`, so the cards before it have had their call of `animateNumber` and
the cards from it on are as they were. -/
def updateStatistics (now : ℚ) : List StatCard → Outcome (List StatCard)
  | [] => ⟨[], false⟩
  | card :: rest =>
    match card.h3 with
    | none => ⟨card :: rest, true⟩
    | some h3 =>
      let after := updateStatistics now rest
      ⟨{ h3 := some (animateCounter now h3 h3.textContent) } :: after.state, after.threw⟩

/-! ## The finance page -/

/-- An element of the finance page.  Elements that the scripts write to hold no other element. -/
structure Element where
  /-- The attribute `id`, when present. -/
  id : Option JSString
  /-- The property `tagName`. -/
  tagName : JSString
  /-- The property `value` of a form control, `none` for an element without it. -/
  value : Option JSString
  /-- The property `textContent`. -/
  textContent : JSString
  /-- Whether the class list contains `highlight`. -/
  highlight : Bool
  /-- Whether the attribute `data-tax-result` is present. -/
  taxResult : Bool
  /-- The inline style property `transform`. -/
  transform : JSString
deriving DecidableEq

/-- What a callback handed to `setTimeout` does, on the element at a position of the page. -/
inductive TimerAction where
  | removeHighlight (index : ℕ)
  | setTransform (index : ℕ) (value : JSString)
deriving DecidableEq

/-- A pending call of `setTimeout`. -/
structure Timer where
  delay : ℕ
  action : TimerAction
deriving DecidableEq

/-- The document: its elements in tree order and the pending timers. -/
structure Page where
  elements : List Element
  timers : List Timer
deriving DecidableEq

/-- The method `document.getElementById`: the position of the first element whose id is
`elementId`.  An empty `id` attribute gives an element no id. -/
def getElementById (page : Page) (elementId : JSString) : Option ℕ :=
  findIndex (fun e => !elementId.isEmpty && e.id == some elementId) page.elements

/-- The expression `document.getElementById(id)?.value`, `none` for `undefined`. -/
def inputValue (page : Page) (elementId : JSString) : Option JSString :=
  match getElementById page elementId with
  | none => none
  | some i => (page.elements.get? i).bind (fun e => e.value)

/-- The expression `parseFloat(v || d)`: the default `d` replaces `undefined` and the empty
string. -/
def parseFloatOr (v : Option JSString) (d : ℚ) : JSNum :=
  match v with
  | none => JSNum.fin d
  | some [] => JSNum.fin d
  | some (c :: cs) => parseFloat (c :: cs)

/-- The five local results of `calculateTaxes`. -/
structure TaxBreakdown where
  irAmount : JSNum
  inssAmount : JSNum
  issAmount : JSNum
  totalTaxes : JSNum
  netAmount : JSNum
deriving DecidableEq

/-- The arithmetic of `calculateTaxes` on the gross amount and the three rates in percent. -/
def taxesOf (grossAmount irPercent inssPercent issPercent : JSNum) : TaxBreakdown :=
  let irRate := irPercent.div (JSNum.fin 100)
  let inssRate := inssPercent.div (JSNum.fin 100)
  let issRate := issPercent.div (JSNum.fin 100)
  let irAmount := grossAmount.mul irRate
  let inssAmount := grossAmount.mul inssRate
  let issAmount := grossAmount.mul issRate
  let totalTaxes := (irAmount.add inssAmount).add issAmount
  let netAmount := grossAmount.sub totalTaxes
  { irAmount := irAmount, inssAmount := inssAmount, issAmount := issAmount,
    totalTaxes := totalTaxes, netAmount := netAmount }

/-- The first part of `calculateTaxes`: read the four inputs and compute the five amounts. -/
def taxBreakdown (page : Page) : TaxBreakdown :=
  taxesOf (parseFloatOr (inputValue page "grossAmount".toList) 0)
    (parseFloatOr (inputValue page "irRate".toList) (55 / 2))
    (parseFloatOr (inputValue page "inssRate".toList) 11)
    (parseFloatOr (inputValue page "issRate".toList) 5)

/-- The function `updateTaxDisplay` of `financeiro.js`. -/
def updateTaxDisplay (host : Host) (page : Page) (elementId : JSString) (value : JSNum) : Page :=
  match getElementById page elementId with
  | none => page
  | some i =>
    { elements := modifyAt (fun e => { e with textContent := host.formatCurrency value,
                                              highlight := true }) i page.elements,
      timers := page.timers ++ [⟨1000, .removeHighlight i⟩] }

/-- The function `updateDisplay` of `financeiro.js`. -/
def updateDisplay (host : Host) (page : Page) (elementId : JSString) (value : JSNum) : Page :=
  match getElementById page elementId with
  | none => page
  | some i =>
    { page with elements := modifyAt (fun e =>
        if e.tagName = "INPUT".toList then { e with value := some (host.toFixed2 value) }
        else { e with textContent := host.formatCurrency value }) i page.elements }

/-- The timers `animateTaxChanges` sets, one for each element with `data-tax-result`, where
`index` is the position of the first element of the list. -/
def taxResultTimers (index : ℕ) : List Element → List Timer
  | [] => []
  | e :: es =>
    if e.taxResult then ⟨200, .setTransform index "scale(1)".toList⟩ :: taxResultTimers (index + 1) es
    else taxResultTimers (index + 1) es

/-- The function `animateTaxChanges` of `financeiro.js`. -/
def animateTaxChanges (page : Page) : Page :=
  { elements := page.elements.map (fun e =>
      if e.taxResult then { e with transform := "scale(1.05)".toList } else e),
    timers := page.timers ++ taxResultTimers 0 page.elements }

/-- The function `calculateTaxes` of `financeiro.js`. -/
def calculateTaxes (host : Host) (page : Page) : Page :=
  let amounts := taxBreakdown page
  let page1 := updateTaxDisplay host page "irAmount".toList amounts.irAmount
  let page2 := updateTaxDisplay host page1 "inssAmount".toList amounts.inssAmount
  let page3 := updateTaxDisplay host page2 "issAmount".toList amounts.issAmount
  let page4 := updateTaxDisplay host page3 "totalTaxes".toList amounts.totalTaxes
  let page5 := updateTaxDisplay host page4 "netAmount".toList amounts.netAmount
  animateTaxChanges page5

/-- The expression `parseInt(v || d)`: the default `d`, an integer, replaces `undefined` and the
empty string. -/
def parseIntOr (v : Option JSString) (d : ℤ) : JSNum :=
  match v with
  | none => JSNum.fin d
  | some [] => JSNum.fin d
  | some (c :: cs) => parseInt (c :: cs)

/-- The three local results of `calculateSessionTotal`. -/
structure SessionTotals where
  completedValue : JSNum
  remainingValue : JSNum
  totalValue : JSNum
deriving DecidableEq

/-- The arithmetic of `calculateSessionTotal` on the session count, the value of a session and the
maximum number of sessions. -/
def sessionTotalsOf (sessionCount sessionValue maxSessions : JSNum) : SessionTotals :=
  let completedValue := sessionCount.mul sessionValue
  let remainingValue := (maxSessions.sub sessionCount).mul sessionValue
  let totalValue := completedValue.add remainingValue
  { completedValue := completedValue, remainingValue := remainingValue,
    totalValue := totalValue }

/-- The first part of `calculateSessionTotal`: read the three inputs and compute the three
values. -/
def sessionTotals (page : Page) : SessionTotals :=
  sessionTotalsOf (parseIntOr (inputValue page "sessionCount".toList) 0)
    (parseFloatOr (inputValue page "sessionValue".toList) 0)
    (parseIntOr (inputValue page "maxSessions".toList) 8)

/-- The function `calculateSessionTotal` of `financeiro.js`. -/
def calculateSessionTotal (host : Host) (page : Page) : Page :=
  let totals := sessionTotals page
  let page1 := updateDisplay host page "completedValue".toList totals.completedValue
  let page2 := updateDisplay host page1 "remainingValue".toList totals.remainingValue
  updateDisplay host page2 "totalValue".toList totals.totalValue

/-- What `updateDisplay` does to the element it finds: an `INPUT` gets `value.toFixed(2)` as its
value, any other element gets the formatted amount as its text. -/
def displayIn (host : Host) (value : JSNum) (e : Element) : Element :=
  if e.tagName = "INPUT".toList then { e with value := some (host.toFixed2 value) }
  else { e with textContent := host.formatCurrency value }

/-- The `textContent` of the element at a position of the page, if there is one. -/
def textAt (page : Page) (i : ℕ) : Option JSString :=
  (page.elements[i]?).map (fun e => e.textContent)

/-! ## Data of the worked examples -/

/-- A host whose `toLowerCase` lower-cases the ASCII letters; the other built-ins are trivial. -/
def asciiHost : Host where
  toLowerCase := fun s => s.map Char.toLower
  localeCompare := fun _ _ => 0
  formatCurrency := fun _ => []
  toFixed2 := fun _ => []
  numberToString := fun _ => []
  querySelectorTh := fun _ _ => none

/-- A body row with one cell, shown. -/
def rowOf (text : String) : Row :=
  { cells := [text.toList], textContent := text.toList, display := [] }

/-- A table of two patients, the second one hidden by an earlier search. -/
def patientsTable : Table :=
  { ths := [{ dataSort := some "nome".toList, sortAsc := false, sortDesc := false }],
    tbodies := [[rowOf "Ana Souza", { rowOf "Bruno Lima" with display := "none".toList }]],
    sortOrder := none }

/-- A form control of the finance page. -/
def inputOf (elementId value : String) : Element :=
  { id := some elementId.toList, tagName := "INPUT".toList, value := some value.toList,
    textContent := [], highlight := false, taxResult := false, transform := [] }

/-- A finance page with the four inputs of the tax form filled in and no element for the results. -/
def taxFormPage : Page :=
  { elements := [inputOf "grossAmount" "1000", inputOf "irRate" "27.5", inputOf "inssRate" "11",
      inputOf "issRate" "5"],
    timers := [] }

/-- A heading of the finance page. -/
def headingElement : Element :=
  { id := some "titulo".toList, tagName := "H1".toList, value := none,
    textContent := "Financeiro".toList, highlight := false, taxResult := false, transform := [] }

/-- A page without any element of the tax form: a heading and a pending timer. -/
def otherPage : Page :=
  { elements := [headingElement], timers := [⟨200, .setTransform 0 "scale(1)".toList⟩] }

/-- The ids of the five elements `calculateTaxes` writes its results to. -/
def taxOutputIds : List JSString :=
  ["irAmount".toList, "inssAmount".toList, "issAmount".toList, "totalTaxes".toList,
    "netAmount".toList]

/-- The header of the column of prices. -/
def valorHeader : Th := { dataSort := some "valor".toList, sortAsc := false, sortDesc := false }

/-- A table of three prices that has not been sorted yet. -/
def pricesTable : Table :=
  { ths := [valorHeader],
    tbodies := [[rowOf "R$ 100,00", rowOf "R$ 20,00", rowOf "R$ 5,00"]],
    sortOrder := none }

/-- A table with two sortable headers, the key of the first of which holds a backslash. -/
def escapedKeyTable : Table :=
  { ths := [{ dataSort := some "\\62".toList, sortAsc := false, sortDesc := false },
            { dataSort := some "b".toList, sortAsc := false, sortDesc := false }],
    tbodies := [[rowOf "Ana"]],
    sortOrder := none }

/-- A column key without a character that is special inside a CSS string: no quotation mark, no
backslash, no line feed, carriage return or form feed, no null character. -/
def isCssPlain (column : JSString) : Bool :=
  column.all (fun c => !(c == '"' || c == '\\' || c.toNat == 0x0A || c.toNat == 0x0D ||
    c.toNat == 0x0C || c.toNat == 0))

/-- A finance page with the gross amount alone: the three inputs of the rates are missing. -/
def grossOnlyPage : Page :=
  { elements := [inputOf "grossAmount" "2000"], timers := [] }

/-- A finance page with ten sessions held at `150.5` each and no input for the maximum. -/
def sessionPage : Page :=
  { elements := [inputOf "sessionCount" "10", inputOf "sessionValue" "150.5"], timers := [] }

/-- The comparison of two strings by their first code points: the difference of the two, with a
missing first code point counted as `-1`. -/
def compareFirstLetter (a b : JSString) : ℤ :=
  (match a with | [] => -1 | c :: _ => (c.toNat : ℤ)) -
    (match b with | [] => -1 | c :: _ => (c.toNat : ℤ))

/-- A host whose `localeCompare` orders the strings by their first letter. -/
def firstLetterHost : Host :=
  { asciiHost with localeCompare := compareFirstLetter }

/-- A cell text in the format of the Brazilian Real: `R$ `, the integer part (digits, with `.`
between the groups of thousands), a comma and the two digits of the cents. -/
def brlText (whole : JSString) (c1 c2 : Char) : JSString :=
  "R$ ".toList ++ whole ++ [',', c1, c2]

/-- The amount of money a text of this format denotes, as the specification reads it: the digits
of the integer part, the separators of thousands left out, plus the cents. -/
def brlAmount (whole : JSString) (c1 c2 : Char) : ℚ :=
  (digitsValue (whole.filter isDigit) : ℚ) + (digitsValue [c1, c2] : ℚ) / 100

/-- The texts of the format of the Real that have no separator of thousands: the integer part is
a non-empty run of digits, and the cents are two digits. -/
def isPlainBrl (whole : JSString) (c1 c2 : Char) : Bool :=
  !whole.isEmpty && whole.all isDigit && isDigit c1 && isDigit c2

/-- The texts of the format of the Real without separator of thousands whose amount, in cents, is
at most `2^53`: the number the code reads in such a text, a double, is the exact value. -/
def isExactBrl (whole : JSString) (c1 c2 : Char) : Bool :=
  isPlainBrl whole c1 c2 && decide (digitsValue (whole ++ [c1, c2]) ≤ 2 ^ 53)

/-- A table of two amounts, the smaller one first, that has not been sorted yet. -/
def thousandsTable : Table :=
  { ths := [valorHeader],
    tbodies := [[rowOf "R$ 5,00", rowOf "R$ 1.234,56"]],
    sortOrder := none }

/-- A card whose `h3` shows the given text, with no animation pending. -/
def cardOf (text : String) : StatCard :=
  { h3 := some { textContent := text.toList, frameRequested := false } }

/-- A card with an animation requested on its `h3`. -/
def animatedCardOf (text : String) : StatCard :=
  { h3 := some { textContent := text.toList, frameRequested := true } }

/-- A card without `h3`. -/
def cardWithoutH3 : StatCard := { h3 := none }

/-- A table with a sortable header and no `tbody`. -/
def headerOnlyTable : Table :=
  { ths := [valorHeader], tbodies := [], sortOrder := none }

/-- An element of the finance page that shows a result as text. -/
def spanOf (elementId : String) : Element :=
  { id := some elementId.toList, tagName := "SPAN".toList, value := none, textContent := [],
    highlight := false, taxResult := false, transform := [] }

/-- A finance page with ten sessions held at `150.5` each, no input for the maximum, a `span` for
the total and an `input` for the remaining value. -/
def sessionFormPage : Page :=
  { elements := [inputOf "sessionCount" "10", inputOf "sessionValue" "150.5", spanOf "totalValue",
      inputOf "remainingValue" ""],
    timers := [] }

/-! ## Lemmas on lists -/

/-- `findIndex` finds nothing when no element satisfies the predicate. -/
theorem findIndex_eq_none {α : Type} (p : α → Bool) (l : List α) (h : ∀ a ∈ l, p a = false) :
    findIndex p l = none := by
  induction l with
  | nil => rfl
  | cons a l ih =>
    have ha : p a = false := h a (List.mem_cons_self a l)
    have hl : findIndex p l = none := ih (fun b hb => h b (List.mem_cons_of_mem a hb))
    simp [findIndex, ha, hl]

/-- `findIndex` on a mapped list is `findIndex` of the composed predicate. -/
theorem findIndex_map {α β : Type} (g : α → β) (p : β → Bool) (l : List α) :
    findIndex p (l.map g) = findIndex (fun a => p (g a)) l := by
  induction l with
  | nil => rfl
  | cons a l ih => simp [findIndex, ih]

/-- `findIndex` finds an index when some element satisfies the predicate. -/
theorem findIndex_isSome {α : Type} (p : α → Bool) (l : List α) (h : ∃ a ∈ l, p a = true) :
    ∃ i, findIndex p l = some i := by
  induction l with
  | nil => obtain ⟨a, ha, _⟩ := h; cases ha
  | cons b l ih =>
    by_cases hb : p b = true
    · exact ⟨0, by simp [findIndex, hb]⟩
    · obtain ⟨a, ha, hpa⟩ := h
      rcases List.mem_cons.mp ha with rfl | hmem
      · exact absurd hpa hb
      · obtain ⟨i, hi⟩ := ih ⟨a, hmem, hpa⟩
        exact ⟨i + 1, by simp [findIndex, hb, hi]⟩

/-- A projection that `f` preserves is preserved by `modifyAt f`. -/
theorem map_modifyAt {α β : Type} (f : α → α) (g : α → β) (h : ∀ a, g (f a) = g a) (i : ℕ)
    (l : List α) : (modifyAt f i l).map g = l.map g := by
  induction l generalizing i with
  | nil => cases i <;> rfl
  | cons a l ih =>
    cases i with
    | zero => simp [modifyAt, h]
    | succ i => simp [modifyAt, ih]

/-- The elements of `modifyAt f i l`, position by position. -/
theorem getElem?_modifyAt {α : Type} (f : α → α) (i j : ℕ) (l : List α) :
    (modifyAt f i l)[j]? = if j = i then l[j]?.map f else l[j]? := by
  induction l generalizing i j with
  | nil => cases i <;> simp [modifyAt]
  | cons a l ih =>
    cases i with
    | zero => cases j <;> simp [modifyAt]
    | succ i => cases j <;> simp [modifyAt, ih]

/-- The index `findIndex` returns holds an element that satisfies the predicate. -/
theorem findIndex_getElem {α : Type} (p : α → Bool) (l : List α) (i : ℕ)
    (h : findIndex p l = some i) : ∃ a, l[i]? = some a ∧ p a = true := by
  induction l generalizing i with
  | nil => simp [findIndex] at h
  | cons b l ih =>
    by_cases hb : p b = true
    · simp only [findIndex, hb, if_true, Option.some.injEq] at h
      subst h
      exact ⟨b, by simp, hb⟩
    · simp only [findIndex, hb, Bool.false_eq_true, if_false, Option.map_eq_some'] at h
      obtain ⟨j, hj, rfl⟩ := h
      obtain ⟨a, ha, hpa⟩ := ih j hj
      exact ⟨a, by simpa using ha, hpa⟩

/-! ## The table filter -/

/-- `includes` decides the relation of being a contiguous sublist. -/
theorem includes_iff_isInfix (text term : JSString) :
    includes text term = true ↔ term <:+: text := by
  induction text with
  | nil => simp [includes, List.isPrefixOf_iff_prefix]
  | cons c cs ih =>
    simp only [includes, Bool.or_eq_true, ih, List.isPrefixOf_iff_prefix]
    rw [List.infix_cons_iff]

/-- The `display` the callback of `filterTable` gives a row. -/
theorem filterRow_display (host : Host) (term : JSString) (row : Row) :
    (filterRow host term row).display =
      if term <:+: host.toLowerCase row.textContent then "".toList else "none".toList := by
  simp only [filterRow, includes_iff_isInfix]

/-- The callback of `filterTable` applied twice is the callback applied once. -/
theorem filterRow_idem (host : Host) (term : JSString) (row : Row) :
    filterRow host term (filterRow host term row) = filterRow host term row := rfl

/-- The body rows after `filterTable` are the images of the body rows of before. -/
theorem bodyRows_filterTable (host : Host) (table : Table) (s : JSString) :
    (filterTable host table s).bodyRows =
      table.bodyRows.map (filterRow host (host.toLowerCase s)) := by
  simp [filterTable, Table.bodyRows, List.map_flatten]

/-- Claim C1. After `filterTable(table, s)` the body rows are those of before, in the same order
and with the same text and cells, and each of them is hidden (`display` is `none`) exactly when its
lower-cased text does not contain the lower-cased `s` as a contiguous block, and shown (`display`
is the empty string) exactly when it does.  The `display` of before plays no part, and nothing else
in the table changes. -/
theorem filterTable_display_iff (host : Host) (table : Table) (s : JSString) :
    (filterTable host table s).ths = table.ths ∧
    (filterTable host table s).sortOrder = table.sortOrder ∧
    (filterTable host table s).bodyRows.length = table.bodyRows.length ∧
    ∀ (i : ℕ) (before after : Row),
      table.bodyRows[i]? = some before →
      (filterTable host table s).bodyRows[i]? = some after →
      after.textContent = before.textContent ∧ after.cells = before.cells ∧
      (after.display = "none".toList ↔
        ¬ host.toLowerCase s <:+: host.toLowerCase before.textContent) ∧
      (after.display = "".toList ↔
        host.toLowerCase s <:+: host.toLowerCase before.textContent) := by
  refine ⟨rfl, rfl, by simp [bodyRows_filterTable], ?_⟩
  intro i before after hb ha
  rw [bodyRows_filterTable, List.getElem?_map, hb] at ha
  simp only [Option.map_some', Option.some.injEq] at ha
  subst ha
  refine ⟨rfl, rfl, ?_, ?_⟩
  · rw [filterRow_display]
    by_cases h : host.toLowerCase s <:+: host.toLowerCase before.textContent
    · simp [h]
    · simp [h]
  · rw [filterRow_display]
    by_cases h : host.toLowerCase s <:+: host.toLowerCase before.textContent
    · simp [h]
    · simp [h]

/-- The search `LIMA` on the table of two patients: the second row, hidden before, is shown. -/
theorem filterTable_display_iff_witness :
    patientsTable.bodyRows[1]? = some { rowOf "Bruno Lima" with display := "none".toList } ∧
    (filterTable asciiHost patientsTable "LIMA".toList).bodyRows[1]? = some (rowOf "Bruno Lima") ∧
    ((rowOf "Bruno Lima").display = "".toList ↔
      asciiHost.toLowerCase "LIMA".toList <:+: asciiHost.toLowerCase "Bruno Lima".toList) :=
  ⟨by decide, by decide,
    ((filterTable_display_iff asciiHost patientsTable "LIMA".toList).2.2.2 1
      { rowOf "Bruno Lima" with display := "none".toList } (rowOf "Bruno Lima")
      (by decide) (by decide)).2.2.2⟩

/-- Claim C7. `filterTable` is idempotent: a second call with the same search string leaves the
table as the first call left it, and so the list of the visible body rows is the same after two
calls as after one. -/
theorem filterTable_idempotent (host : Host) (table : Table) (s : JSString) :
    filterTable host (filterTable host table s) s = filterTable host table s ∧
    visibleRows (filterTable host (filterTable host table s) s) =
      visibleRows (filterTable host table s) := by
  have h : filterTable host (filterTable host table s) s = filterTable host table s := by
    simp only [filterTable, List.map_map]
    congr 1
    apply List.map_congr_left
    intro rows _
    simp only [Function.comp, List.map_map]
    apply List.map_congr_left
    intro row _
    exact filterRow_idem host _ row
  exact ⟨h, by rw [h]⟩

/-! ## The easing curve -/

/-- Claim C10. In exact arithmetic `easeOutQuart(t)` is `1 - (1 - t)^4` for every `t`: after the
pre-decrement the four factors are all `t - 1`.  In particular `easeOutQuart(0) = 0` and
`easeOutQuart(1) = 1`. -/
theorem easeOutQuart_eq (t : ℚ) :
    easeOutQuart t = 1 - (1 - t) ^ 4 ∧ easeOutQuart t = 1 - (t - 1) * (t - 1) * (t - 1) * (t - 1) ∧
    easeOutQuart 0 = 0 ∧ easeOutQuart 1 = 1 := by
  refine ⟨?_, rfl, ?_, ?_⟩
  · simp only [easeOutQuart]; ring
  · simp only [easeOutQuart]; norm_num
  · simp only [easeOutQuart]; norm_num

/-! ## The tax computation -/

/-- The five amounts on finite inputs, in closed form. -/
theorem taxesOf_fin (g rIr rInss rIss : ℚ) :
    taxesOf (.fin g) (.fin rIr) (.fin rInss) (.fin rIss) =
      { irAmount := .fin (g * rIr / 100), inssAmount := .fin (g * rInss / 100),
        issAmount := .fin (g * rIss / 100),
        totalTaxes := .fin (g * rIr / 100 + g * rInss / 100 + g * rIss / 100),
        netAmount := .fin (g - (g * rIr / 100 + g * rInss / 100 + g * rIss / 100)) } := by
  simp [taxesOf, JSNum.div, JSNum.mul, JSNum.add, JSNum.sub, JSNum.neg, sub_eq_add_neg,
    mul_div_assoc]

/-- The four inputs of the example tax form read as `1000`, `27.5`, `11` and `5`. -/
theorem taxFormPage_inputs :
    parseFloatOr (inputValue taxFormPage "grossAmount".toList) 0 = .fin 1000 ∧
    parseFloatOr (inputValue taxFormPage "irRate".toList) (55 / 2) = .fin (55 / 2) ∧
    parseFloatOr (inputValue taxFormPage "inssRate".toList) 11 = .fin 11 ∧
    parseFloatOr (inputValue taxFormPage "issRate".toList) 5 = .fin 5 := by
  refine ⟨?_, ?_, ?_, ?_⟩ <;>
  · simp [parseFloatOr, inputValue, getElementById, taxFormPage, inputOf, findIndex, parseFloat,
      parseUnsigned, isDigit, isJSWhiteSpace, digitsValue, exponentPart]
    try norm_num

/-- Claim C4. When the four inputs read as the numbers `g`, `rIr`, `rInss` and `rIss`, of any sign
and size, `calculateTaxes` computes in exact arithmetic `IR = g*rIr/100`, `INSS = g*rInss/100`,
`ISS = g*rIss/100`, `total = IR + INSS + ISS` and `net = g - total`, so that `net + total = g`.
With the inputs `1000`, `27.5`, `11` and `5` the five results are `275`, `110`, `50`, `435` and
`565`. -/
theorem calculateTaxes_amounts :
    (∀ (page : Page) (g rIr rInss rIss : ℚ),
      parseFloatOr (inputValue page "grossAmount".toList) 0 = .fin g →
      parseFloatOr (inputValue page "irRate".toList) (55 / 2) = .fin rIr →
      parseFloatOr (inputValue page "inssRate".toList) 11 = .fin rInss →
      parseFloatOr (inputValue page "issRate".toList) 5 = .fin rIss →
      taxBreakdown page =
        { irAmount := .fin (g * rIr / 100), inssAmount := .fin (g * rInss / 100),
          issAmount := .fin (g * rIss / 100),
          totalTaxes := .fin (g * rIr / 100 + g * rInss / 100 + g * rIss / 100),
          netAmount := .fin (g - (g * rIr / 100 + g * rInss / 100 + g * rIss / 100)) } ∧
      ∃ total net : ℚ, (taxBreakdown page).totalTaxes = .fin total ∧
        (taxBreakdown page).netAmount = .fin net ∧ net + total = g) ∧
    taxBreakdown taxFormPage =
      { irAmount := .fin 275, inssAmount := .fin 110, issAmount := .fin 50,
        totalTaxes := .fin 435, netAmount := .fin 565 } := by
  have key : ∀ (page : Page) (g rIr rInss rIss : ℚ),
      parseFloatOr (inputValue page "grossAmount".toList) 0 = .fin g →
      parseFloatOr (inputValue page "irRate".toList) (55 / 2) = .fin rIr →
      parseFloatOr (inputValue page "inssRate".toList) 11 = .fin rInss →
      parseFloatOr (inputValue page "issRate".toList) 5 = .fin rIss →
      taxBreakdown page =
        { irAmount := .fin (g * rIr / 100), inssAmount := .fin (g * rInss / 100),
          issAmount := .fin (g * rIss / 100),
          totalTaxes := .fin (g * rIr / 100 + g * rInss / 100 + g * rIss / 100),
          netAmount := .fin (g - (g * rIr / 100 + g * rInss / 100 + g * rIss / 100)) } := by
    intro page g rIr rInss rIss hg hIr hInss hIss
    rw [taxBreakdown, hg, hIr, hInss, hIss, taxesOf_fin]
  refine ⟨?_, ?_⟩
  · intro page g rIr rInss rIss hg hIr hInss hIss
    refine ⟨key page g rIr rInss rIss hg hIr hInss hIss, ?_⟩
    rw [key page g rIr rInss rIss hg hIr hInss hIss]
    exact ⟨_, _, rfl, rfl, by ring⟩
  · obtain ⟨hg, hIr, hInss, hIss⟩ := taxFormPage_inputs
    rw [key taxFormPage 1000 (55 / 2) 11 5 hg hIr hInss hIss]
    norm_num

/-- The tax form with `1000`, `27.5`, `11` and `5`: the net amount and the total add up to the
gross amount. -/
theorem calculateTaxes_amounts_witness :
    ∃ total net : ℚ, (taxBreakdown taxFormPage).totalTaxes = .fin total ∧
      (taxBreakdown taxFormPage).netAmount = .fin net ∧ net + total = 1000 :=
  (calculateTaxes_amounts.1 taxFormPage 1000 (55 / 2) 11 5 taxFormPage_inputs.1
    taxFormPage_inputs.2.1 taxFormPage_inputs.2.2.1 taxFormPage_inputs.2.2.2).2

/-! ## The tax computation: what is displayed -/

/-- The element `getElementById` finds carries the id. -/
theorem getElementById_getElem (page : Page) (elementId : JSString) (i : ℕ)
    (h : getElementById page elementId = some i) :
    ∃ e, page.elements[i]? = some e ∧ e.id = some elementId := by
  obtain ⟨e, he, hp⟩ := findIndex_getElem _ _ _ h
  refine ⟨e, he, ?_⟩
  simp only [Bool.and_eq_true, beq_iff_eq] at hp
  exact hp.2

/-- `getElementById` depends on the ids of the elements only. -/
theorem getElementById_congr (page page' : Page) (elementId : JSString)
    (h : page'.elements.map (fun e => e.id) = page.elements.map (fun e => e.id)) :
    getElementById page' elementId = getElementById page elementId := by
  have e := findIndex_map (fun e : Element => e.id)
    (fun d => !elementId.isEmpty && d == some elementId)
  simp only [getElementById]
  rw [← e page'.elements, ← e page.elements, h]

/-- `updateTaxDisplay` changes no id. -/
theorem updateTaxDisplay_ids (host : Host) (page : Page) (elementId : JSString) (value : JSNum) :
    (updateTaxDisplay host page elementId value).elements.map (fun e => e.id) =
      page.elements.map (fun e => e.id) := by
  simp only [updateTaxDisplay]
  split
  · rfl
  · dsimp only
    apply map_modifyAt
    intro e
    rfl

/-- The text at a position after `updateTaxDisplay`. -/
theorem textAt_updateTaxDisplay (host : Host) (page : Page) (elementId : JSString)
    (value : JSNum) (i : ℕ) :
    textAt (updateTaxDisplay host page elementId value) i =
      if getElementById page elementId = some i then some (host.formatCurrency value)
      else textAt page i := by
  simp only [updateTaxDisplay, textAt]
  cases hfind : getElementById page elementId with
  | none => simp
  | some j =>
    simp only [getElem?_modifyAt, Option.some.injEq]
    by_cases hij : i = j
    · subst hij
      obtain ⟨e, he, _⟩ := getElementById_getElem page elementId i hfind
      simp [he]
    · have hji : ¬ j = i := fun h => hij h.symm
      simp [hij, hji]

/-- `animateTaxChanges` changes no text. -/
theorem textAt_animateTaxChanges (page : Page) (i : ℕ) :
    textAt (animateTaxChanges page) i = textAt page i := by
  simp only [textAt, animateTaxChanges, List.getElem?_map, Option.map_map]
  congr 1
  funext e
  simp only [Function.comp]
  split <;> rfl

/-- Two different ids are not found at the same position. -/
theorem getElementById_ne (page : Page) (a b : JSString) (i : ℕ) (hab : a ≠ b)
    (ha : getElementById page a = some i) : getElementById page b ≠ some i := by
  intro hb
  obtain ⟨e, he, hea⟩ := getElementById_getElem page a i ha
  obtain ⟨e', he', heb⟩ := getElementById_getElem page b i hb
  rw [he] at he'
  cases he'
  rw [hea] at heb
  exact hab (Option.some.inj heb)

/-- After `calculateTaxes` each of the five result elements that is present shows the formatted
amount computed for it. -/
theorem calculateTaxes_displays (host : Host) (page : Page) (i : ℕ) :
    (getElementById page "irAmount".toList = some i →
      textAt (calculateTaxes host page) i =
        some (host.formatCurrency (taxBreakdown page).irAmount)) ∧
    (getElementById page "inssAmount".toList = some i →
      textAt (calculateTaxes host page) i =
        some (host.formatCurrency (taxBreakdown page).inssAmount)) ∧
    (getElementById page "issAmount".toList = some i →
      textAt (calculateTaxes host page) i =
        some (host.formatCurrency (taxBreakdown page).issAmount)) ∧
    (getElementById page "totalTaxes".toList = some i →
      textAt (calculateTaxes host page) i =
        some (host.formatCurrency (taxBreakdown page).totalTaxes)) ∧
    (getElementById page "netAmount".toList = some i →
      textAt (calculateTaxes host page) i =
        some (host.formatCurrency (taxBreakdown page).netAmount)) := by
  have keep : ∀ (p : Page) (elementId : JSString) (value : JSNum),
      getElementById (updateTaxDisplay host p elementId value) =
        getElementById p := by
    intro p elementId value
    funext x
    exact getElementById_congr _ _ _ (updateTaxDisplay_ids host p elementId value)
  refine ⟨?_, ?_, ?_, ?_, ?_⟩ <;> intro h
  · have h2 := getElementById_ne page _ "inssAmount".toList i (by decide) h
    have h3 := getElementById_ne page _ "issAmount".toList i (by decide) h
    have h4 := getElementById_ne page _ "totalTaxes".toList i (by decide) h
    have h5 := getElementById_ne page _ "netAmount".toList i (by decide) h
    simp only [calculateTaxes, textAt_animateTaxChanges, textAt_updateTaxDisplay, keep, h, h2, h3,
      h4, h5, if_true, if_false]
  · have h3 := getElementById_ne page _ "issAmount".toList i (by decide) h
    have h4 := getElementById_ne page _ "totalTaxes".toList i (by decide) h
    have h5 := getElementById_ne page _ "netAmount".toList i (by decide) h
    simp only [calculateTaxes, textAt_animateTaxChanges, textAt_updateTaxDisplay, keep, h, h3,
      h4, h5, if_true, if_false]
  · have h4 := getElementById_ne page _ "totalTaxes".toList i (by decide) h
    have h5 := getElementById_ne page _ "netAmount".toList i (by decide) h
    simp only [calculateTaxes, textAt_animateTaxChanges, textAt_updateTaxDisplay, keep, h,
      h4, h5, if_true, if_false]
  · have h5 := getElementById_ne page _ "netAmount".toList i (by decide) h
    simp only [calculateTaxes, textAt_animateTaxChanges, textAt_updateTaxDisplay, keep, h,
      h5, if_true, if_false]
  · simp only [calculateTaxes, textAt_animateTaxChanges, textAt_updateTaxDisplay, keep, h,
      if_true, if_false]

/-! ## Missing elements -/

/-- `getElementById` returns `null` for an id that no element carries. -/
theorem getElementById_eq_none (page : Page) (elementId : JSString)
    (h : ∀ e ∈ page.elements, e.id ≠ some elementId) : getElementById page elementId = none := by
  apply findIndex_eq_none
  intro e he
  have := h e he
  simp [this]

/-- Without an element marked `data-tax-result` no timer is set. -/
theorem taxResultTimers_eq_nil (es : List Element) (h : ∀ e ∈ es, e.taxResult = false) (i : ℕ) :
    taxResultTimers i es = [] := by
  induction es generalizing i with
  | nil => rfl
  | cons e es ih =>
    have he : e.taxResult = false := h e (List.mem_cons_self e es)
    simp [taxResultTimers, he, ih (fun b hb => h b (List.mem_cons_of_mem e hb))]

/-- Without an element marked `data-tax-result`, `animateTaxChanges` changes nothing. -/
theorem animateTaxChanges_eq_self (page : Page) (h : ∀ e ∈ page.elements, e.taxResult = false) :
    animateTaxChanges page = page := by
  have hmap : page.elements.map (fun e =>
      if e.taxResult then { e with transform := "scale(1.05)".toList } else e) = page.elements := by
    conv_rhs => rw [← List.map_id page.elements]
    apply List.map_congr_left
    intro e he
    simp [h e he]
  simp only [animateTaxChanges, hmap, taxResultTimers_eq_nil page.elements h 0, List.append_nil]

/-- Claim C6. For an id that no element of the page carries and for every value,
`updateTaxDisplay(id, value)` and `updateDisplay(id, value)` leave the page as it is: every element
and the list of pending timers are unchanged (the functions are total: no statement on this path
throws).  Hence `calculateTaxes` changes nothing on a page that has none of the five result
elements and no element marked `data-tax-result`, whether or not the inputs are there. -/
theorem missing_target_noop (host : Host) (page : Page) :
    (∀ (elementId : JSString) (value : JSNum),
      (∀ e ∈ page.elements, e.id ≠ some elementId) →
      updateTaxDisplay host page elementId value = page ∧
      updateDisplay host page elementId value = page) ∧
    ((∀ elementId ∈ taxOutputIds, ∀ e ∈ page.elements, e.id ≠ some elementId) →
      (∀ e ∈ page.elements, e.taxResult = false) →
      calculateTaxes host page = page) := by
  have hnoop : ∀ (elementId : JSString) (value : JSNum),
      (∀ e ∈ page.elements, e.id ≠ some elementId) →
      updateTaxDisplay host page elementId value = page := by
    intro elementId value h
    simp only [updateTaxDisplay, getElementById_eq_none page elementId h]
  refine ⟨?_, ?_⟩
  · intro elementId value h
    refine ⟨hnoop elementId value h, ?_⟩
    simp only [updateDisplay, getElementById_eq_none page elementId h]
  · intro hids htax
    simp only [calculateTaxes]
    rw [hnoop "irAmount".toList _ (hids _ (by simp [taxOutputIds])),
      hnoop "inssAmount".toList _ (hids _ (by simp [taxOutputIds])),
      hnoop "issAmount".toList _ (hids _ (by simp [taxOutputIds])),
      hnoop "totalTaxes".toList _ (hids _ (by simp [taxOutputIds])),
      hnoop "netAmount".toList _ (hids _ (by simp [taxOutputIds]))]
    exact animateTaxChanges_eq_self page htax

/-- On the page that holds only a heading, `calculateTaxes` changes nothing. -/
theorem missing_target_noop_witness : calculateTaxes asciiHost otherPage = otherPage :=
  (missing_target_noop asciiHost otherPage).2
    (by simp [taxOutputIds, otherPage, headingElement])
    (by simp [otherPage, headingElement])

/-! ## The table sort: structure of a call -/

/-- Clearing the indicators changes no `data-sort` attribute. -/
theorem map_dataSort_clearSortIndicators (ths : List Th) :
    (clearSortIndicators ths).map (fun th => th.dataSort) = ths.map (fun th => th.dataSort) := by
  simp only [clearSortIndicators, List.map_map]
  apply List.map_congr_left
  intro th _
  simp only [Function.comp]
  split <;> rfl

/-- Adding an indicator changes no `data-sort` attribute. -/
theorem addSortIndicator_dataSort (asc : Bool) (th : Th) :
    (addSortIndicator asc th).dataSort = th.dataSort := by
  cases asc <;> rfl

/-- `sortTable` changes no `data-sort` attribute, whatever its outcome. -/
theorem sortTable_ths_dataSort (host : Host) (table : Table) (column : JSString) :
    (sortTable host table column).state.ths.map (fun th => th.dataSort) =
      table.ths.map (fun th => th.dataSort) := by
  unfold sortTable
  split
  · rfl
  · split
    · rfl
    · dsimp only
      split
      · rfl
      · split
        · exact map_dataSort_clearSortIndicators _
        · exact map_dataSort_clearSortIndicators _
        · rw [map_modifyAt _ _ (addSortIndicator_dataSort _)]
          exact map_dataSort_clearSortIndicators _

/-- A table with a `tbody` still has one after `sortTable`. -/
theorem sortTable_tbodies_ne_nil (host : Host) (table : Table) (column : JSString)
    (h : table.tbodies ≠ []) : (sortTable host table column).state.tbodies ≠ [] := by
  unfold sortTable
  split
  · exact h
  · rename_i rows rest hb
    split
    · exact h
    · dsimp only
      split
      · simp [hb]
      · split <;> simp

/-- When the header is found, `sortTable` stores the direction it has taken. -/
theorem sortTable_sortOrder (host : Host) (table : Table) (column : JSString) (i : ℕ)
    (hb : table.tbodies ≠ [])
    (hi : findIndex (fun th => th.dataSort == some column) table.ths = some i) :
    (sortTable host table column).state.sortOrder =
      some (if isAscending table then "asc".toList else "desc".toList) := by
  unfold sortTable
  split
  · rename_i h; exact absurd h hb
  · rw [hi]
    dsimp only
    split
    · rfl
    · split <;> rfl

/-- When the header is found and every row has the cell, the first body is the sorted array. -/
theorem sortTable_tbodies (host : Host) (table : Table) (column : JSString)
    (rows : List Row) (rest : List (List Row)) (i : ℕ)
    (hb : table.tbodies = rows :: rest)
    (hi : findIndex (fun th => th.dataSort == some column) table.ths = some i)
    (hcells : ∀ row ∈ rows, i < row.cells.length) :
    (sortTable host table column).state.tbodies =
      arraySort (compareRows host (isAscending table) i) rows :: rest := by
  have hany : rows.any (fun row => decide (row.cells.length ≤ i)) = false := by
    rw [List.any_eq_false]
    intro row hrow
    simpa using hcells row hrow
  unfold sortTable
  rw [hb]
  dsimp only
  rw [hi]
  dsimp only
  rw [hany, Bool.and_false]
  simp only [Bool.false_eq_true, if_false]
  split <;> rfl

/-- The header index depends on the `data-sort` attributes only. -/
theorem findSortHeader_congr (ths ths' : List Th) (column : JSString)
    (h : ths'.map (fun th => th.dataSort) = ths.map (fun th => th.dataSort)) :
    findIndex (fun th => th.dataSort == some column) ths' =
      findIndex (fun th => th.dataSort == some column) ths := by
  have e := findIndex_map (fun th : Th => th.dataSort) (fun d => d == some column)
  rw [← e ths', ← e ths, h]

/-- A column that some `th` carries as its key has a header index. -/
theorem findSortHeader_isSome (ths : List Th) (column : JSString)
    (h : ∃ th ∈ ths, th.dataSort = some column) :
    ∃ i, findIndex (fun th => th.dataSort == some column) ths = some i := by
  apply findIndex_isSome
  obtain ⟨th, hth, hd⟩ := h
  exact ⟨th, hth, by simp [hd]⟩

/-- A call that finds its header flips the direction the next call reads. -/
theorem isAscending_sortTable (host : Host) (table : Table) (column : JSString) (i : ℕ)
    (hb : table.tbodies ≠ [])
    (hi : findIndex (fun th => th.dataSort == some column) table.ths = some i) :
    isAscending (sortTable host table column).state = !isAscending table := by
  rw [isAscending, sortTable_sortOrder host table column i hb hi]
  cases h : isAscending table <;> simp

/-- A sequence of calls followed by one more call. -/
theorem sortTableAll_append (host : Host) (table : Table) (cs : List JSString) (c : JSString) :
    sortTableAll host table (cs ++ [c]) = (sortTable host (sortTableAll host table cs) c).state := by
  simp [sortTableAll, List.foldl_append]

/-- A sequence of calls keeps the `tbody` and the `data-sort` attributes. -/
theorem sortTableAll_invariant (host : Host) (columns : List JSString) (table : Table)
    (hb : table.tbodies ≠ []) :
    (sortTableAll host table columns).tbodies ≠ [] ∧
    (sortTableAll host table columns).ths.map (fun th => th.dataSort) =
      table.ths.map (fun th => th.dataSort) := by
  induction columns generalizing table with
  | nil => exact ⟨hb, rfl⟩
  | cons c cs ih =>
    have h1 := sortTable_tbodies_ne_nil host table c hb
    obtain ⟨h2, h3⟩ := ih (sortTable host table c).state h1
    refine ⟨h2, ?_⟩
    have : sortTableAll host table (c :: cs) = sortTableAll host (sortTable host table c).state cs :=
      rfl
    rw [this, h3, sortTable_ths_dataSort]

/-! ## The table sort: the order of the rows -/

/-- `sortedInsert` adds the element and keeps the others. -/
theorem perm_sortedInsert {α : Type} (cmp : α → α → JSNum) (a : α) (l : List α) :
    (sortedInsert cmp a l).Perm (a :: l) := by
  induction l with
  | nil => exact List.Perm.refl _
  | cons b l ih =>
    simp only [sortedInsert]
    split
    · exact ((List.Perm.cons b ih).trans (List.Perm.swap a b l))
    · exact List.Perm.refl _

/-- `arraySort` returns a permutation of the array. -/
theorem perm_arraySort {α : Type} (cmp : α → α → JSNum) (l : List α) :
    (arraySort cmp l).Perm l := by
  induction l with
  | nil => exact List.Perm.refl _
  | cons a l ih => exact (perm_sortedInsert cmp a _).trans (List.Perm.cons a ih)

/-- `sortedInsert` keeps a list sorted for a relation that is total and transitive on the
elements at hand and that the comparator decides. -/
theorem pairwise_sortedInsert {α : Type} (cmp : α → α → JSNum) (r : α → α → Prop) (S : α → Prop)
    (htotal : ∀ a b, S a → S b → r a b ∨ r b a)
    (htrans : ∀ a b c, S a → S b → S c → r a b → r b c → r a c)
    (hcmp : ∀ a b, S a → S b → ((cmp a b).isPos = true ↔ ¬ r a b))
    (a : α) (l : List α) (ha : S a) (hl : ∀ b ∈ l, S b) (hs : l.Pairwise r) :
    (sortedInsert cmp a l).Pairwise r := by
  induction l with
  | nil => simp [sortedInsert]
  | cons b l ih =>
    have hb : S b := hl b (List.mem_cons_self b l)
    have hl' : ∀ c ∈ l, S c := fun c hc => hl c (List.mem_cons_of_mem b hc)
    obtain ⟨hbl, hsl⟩ := List.pairwise_cons.mp hs
    simp only [sortedInsert]
    split
    · rename_i hpos
      have hnab : ¬ r a b := (hcmp a b ha hb).mp hpos
      have hba : r b a := (htotal a b ha hb).resolve_left hnab
      refine List.pairwise_cons.mpr ⟨?_, ih hl' hsl⟩
      intro x hx
      rcases List.mem_cons.mp ((perm_sortedInsert cmp a l).subset hx) with rfl | hx'
      · exact hba
      · exact hbl x hx'
    · rename_i hpos
      have hab : r a b := by
        by_contra hn
        exact hpos ((hcmp a b ha hb).mpr hn)
      refine List.pairwise_cons.mpr ⟨?_, hs⟩
      intro x hx
      rcases List.mem_cons.mp hx with rfl | hx'
      · exact hab
      · exact htrans a b x ha hb (hl' x hx') hab (hbl x hx')

/-- `arraySort` returns a sorted list for a relation that is total and transitive on the
elements of the array and that the comparator decides. -/
theorem pairwise_arraySort {α : Type} (cmp : α → α → JSNum) (r : α → α → Prop) (S : α → Prop)
    (htotal : ∀ a b, S a → S b → r a b ∨ r b a)
    (htrans : ∀ a b c, S a → S b → S c → r a b → r b c → r a c)
    (hcmp : ∀ a b, S a → S b → ((cmp a b).isPos = true ↔ ¬ r a b))
    (l : List α) (hl : ∀ b ∈ l, S b) : (arraySort cmp l).Pairwise r := by
  induction l with
  | nil => simp [arraySort]
  | cons a l ih =>
    have hl' : ∀ c ∈ l, S c := fun c hc => hl c (List.mem_cons_of_mem a hc)
    exact pairwise_sortedInsert cmp r S htotal htrans hcmp a _ (hl a (List.mem_cons_self a l))
      (fun b hb => hl' b ((perm_arraySort cmp l).subset hb)) (ih hl')

/-- The order of the numbers other than `NaN` is total. -/
theorem JSNum.le_or_ge (x y : JSNum) (hx : x.isNaN = false) (hy : y.isNaN = false) :
    JSNum.le x y ∨ JSNum.le y x := by
  cases x <;> cases y <;> simp_all [JSNum.le, JSNum.isNaN]
  exact le_total _ _

/-- The order of the numbers other than `NaN` is transitive. -/
theorem JSNum.le_chain (x y z : JSNum) (hxy : JSNum.le x y) (hyz : JSNum.le y z) :
    JSNum.le x z := by
  cases x <;> cases y <;> cases z <;> simp_all [JSNum.le]
  exact le_trans hxy hyz

/-- For numbers other than `NaN`, `x - y > 0` holds exactly when `x ≤ y` fails. -/
theorem JSNum.isPos_sub (x y : JSNum) (hx : x.isNaN = false) (hy : y.isNaN = false) :
    (x.sub y).isPos = true ↔ ¬ JSNum.le x y := by
  cases x <;> cases y <;>
    simp_all [JSNum.le, JSNum.isNaN, JSNum.sub, JSNum.add, JSNum.neg, JSNum.isPos]
  

/-- The three prices of the example parse to `10000`, `2000` and `500`: the comma is dropped. -/
theorem cellNumber_rowOf_prices :
    cellNumber 0 (rowOf "R$ 100,00") = .fin 10000 ∧ cellNumber 0 (rowOf "R$ 20,00") = .fin 2000 ∧
    cellNumber 0 (rowOf "R$ 5,00") = .fin 500 := by
  refine ⟨?_, ?_, ?_⟩ <;>
  simp [cellNumber, cellValue, rowOf, trim, parseFloat, stripNonNumeric, parseUnsigned, isDigit,
    isJSWhiteSpace, digitsValue, exponentPart]

/-- On two rows whose cells parse to numbers the comparator is a difference. -/
theorem compareRows_numeric (host : Host) (asc : Bool) (i : ℕ) (a b : Row)
    (ha : (cellNumber i a).isNaN = false) (hb : (cellNumber i b).isNaN = false) :
    compareRows host asc i a b =
      if asc then (cellNumber i a).sub (cellNumber i b) else (cellNumber i b).sub (cellNumber i a) := by
  simp only [cellNumber] at ha hb
  simp [compareRows, cellNumber, ha, hb]

/-- Claim C2. On a table whose header for the column is at index `i` and whose rows all have a
cell `i` that parses to a number other than `NaN`, `sortTable` leaves in the first body a
permutation of the rows of before; the parsed values are non-decreasing from top to bottom when the
call is ascending (the stored order was not `asc`) and non-increasing when it is descending.  The
rows `R$ 100,00`, `R$ 20,00`, `R$ 5,00` come out as `R$ 5,00`, `R$ 20,00`, `R$ 100,00` after an
ascending call. -/
theorem sortTable_numeric (host : Host) :
    (∀ (table : Table) (column : JSString) (rows : List Row) (rest : List (List Row)) (i : ℕ),
      table.tbodies = rows :: rest →
      findIndex (fun th => th.dataSort == some column) table.ths = some i →
      (∀ row ∈ rows, i < row.cells.length ∧ (cellNumber i row).isNaN = false) →
      ∃ sorted : List Row,
        (sortTable host table column).state.tbodies = sorted :: rest ∧ sorted.Perm rows ∧
        (table.sortOrder ≠ some "asc".toList →
          sorted.Pairwise (fun a b => JSNum.le (cellNumber i a) (cellNumber i b))) ∧
        (table.sortOrder = some "asc".toList →
          sorted.Pairwise (fun a b => JSNum.le (cellNumber i b) (cellNumber i a)))) ∧
    (sortTable host pricesTable "valor".toList).state.tbodies =
      [[rowOf "R$ 5,00", rowOf "R$ 20,00", rowOf "R$ 100,00"]] := by
  refine ⟨?_, ?_⟩
  · intro table column rows rest i hb hi hrows
    refine ⟨_, sortTable_tbodies host table column rows rest i hb hi (fun r hr => (hrows r hr).1),
      perm_arraySort _ _, ?_, ?_⟩
    · intro hasc
      have hdir : isAscending table = true := by simpa [isAscending] using hasc
      rw [hdir]
      apply pairwise_arraySort _ _ (fun row => (cellNumber i row).isNaN = false)
      · intro a b ha hb'; exact JSNum.le_or_ge _ _ ha hb'
      · intro a b c _ _ _ h1 h2; exact JSNum.le_chain _ _ _ h1 h2
      · intro a b ha hb'
        rw [compareRows_numeric host true i a b ha hb']
        exact JSNum.isPos_sub _ _ ha hb'
      · intro r hr; exact (hrows r hr).2
    · intro hdesc
      have hdir : isAscending table = false := by simp [isAscending, hdesc]
      rw [hdir]
      apply pairwise_arraySort _ _ (fun row => (cellNumber i row).isNaN = false)
      · intro a b ha hb'; exact JSNum.le_or_ge _ _ hb' ha
      · intro a b c _ _ _ h1 h2; exact JSNum.le_chain _ _ _ h2 h1
      · intro a b ha hb'
        rw [compareRows_numeric host false i a b ha hb']
        exact JSNum.isPos_sub _ _ hb' ha
      · intro r hr; exact (hrows r hr).2
  · obtain ⟨h100, h20, h5⟩ := cellNumber_rowOf_prices
    rw [sortTable_tbodies host pricesTable "valor".toList _ [] 0 rfl (by decide)
      (by decide)]
    have c1 := compareRows_numeric host true 0 (rowOf "R$ 20,00") (rowOf "R$ 5,00")
      (by rw [h20]; rfl) (by rw [h5]; rfl)
    have c2 := compareRows_numeric host true 0 (rowOf "R$ 100,00") (rowOf "R$ 5,00")
      (by rw [h100]; rfl) (by rw [h5]; rfl)
    have c3 := compareRows_numeric host true 0 (rowOf "R$ 100,00") (rowOf "R$ 20,00")
      (by rw [h100]; rfl) (by rw [h20]; rfl)
    rw [h100, h20, h5] at *
    have e : isAscending pricesTable = true := by decide
    rw [e]
    simp [arraySort, sortedInsert, c1, c2, c3, JSNum.sub, JSNum.add, JSNum.neg, JSNum.isPos]
    norm_num

/-- The table of three prices, sorted by an ascending call on the column `valor`. -/
theorem sortTable_numeric_witness :
    ∃ sorted : List Row,
      (sortTable asciiHost pricesTable "valor".toList).state.tbodies = sorted :: [] ∧
      sorted.Perm [rowOf "R$ 100,00", rowOf "R$ 20,00", rowOf "R$ 5,00"] ∧
      (pricesTable.sortOrder ≠ some "asc".toList →
        sorted.Pairwise (fun a b => JSNum.le (cellNumber 0 a) (cellNumber 0 b))) ∧
      (pricesTable.sortOrder = some "asc".toList →
        sorted.Pairwise (fun a b => JSNum.le (cellNumber 0 b) (cellNumber 0 a))) :=
  (sortTable_numeric asciiHost).1 pricesTable "valor".toList
    [rowOf "R$ 100,00", rowOf "R$ 20,00", rowOf "R$ 5,00"] [] 0 rfl (by decide)
    (by
      intro row hrow
      simp only [List.mem_cons, List.mem_singleton, List.not_mem_nil, or_false] at hrow
      rcases hrow with rfl | rfl | rfl
      · exact ⟨by decide, by rw [cellNumber_rowOf_prices.1]; rfl⟩
      · exact ⟨by decide, by rw [cellNumber_rowOf_prices.2.1]; rfl⟩
      · exact ⟨by decide, by rw [cellNumber_rowOf_prices.2.2]; rfl⟩)

/-! ## The table sort: no header, and the indicators -/

/-- Claim C8. On a table with a `tbody`, when no `th` carries the column key as its `data-sort`,
`sortTable` returns without a throw and leaves the table as it was: the rows of the bodies and
their order, the stored sort order and the `th` elements with their indicator classes. -/
theorem sortTable_without_header (host : Host) (table : Table) (column : JSString)
    (hbody : table.tbodies ≠ [])
    (hnone : ∀ th ∈ table.ths, th.dataSort ≠ some column) :
    (sortTable host table column).state = table ∧
    (sortTable host table column).threw = false ∧
    (sortTable host table column).state.tbodies = table.tbodies ∧
    (sortTable host table column).state.sortOrder = table.sortOrder ∧
    (sortTable host table column).state.ths = table.ths := by
  have hfind : findIndex (fun th => th.dataSort == some column) table.ths = none := by
    apply findIndex_eq_none
    intro th hth
    simpa using hnone th hth
  have h : sortTable host table column = ⟨table, false⟩ := by
    unfold sortTable
    split
    · rename_i h; exact absurd h hbody
    · rw [hfind]
  rw [h]
  exact ⟨rfl, rfl, rfl, rfl, rfl⟩

/-- The table of two patients has no header with the key `idade`. -/
theorem sortTable_without_header_witness :
    (sortTable asciiHost patientsTable "idade".toList).state = patientsTable :=
  (sortTable_without_header asciiHost patientsTable "idade".toList (by decide) (by decide)).1

/-- Claim C9, at a key with a backslash.  The first header has the key `\62` and the second the
key `b`.  `sortTable(table, '\62')` finds the first header by `dataset.sort === column`, sorts
ascending and returns; the selector text `th[data-sort="\62"]` denotes the value `b`, so the
class `sort-asc` is on the second header and the header of the sorted column carries neither
class. -/
theorem sortTable_escaped_key (host : Host) :
    findIndex (fun th => th.dataSort == some "\\62".toList) escapedKeyTable.ths = some 0 ∧
    (sortTable host escapedKeyTable "\\62".toList).threw = false ∧
    (sortTable host escapedKeyTable "\\62".toList).state.sortOrder = some "asc".toList ∧
    (sortTable host escapedKeyTable "\\62".toList).state.ths =
      [{ dataSort := some "\\62".toList, sortAsc := false, sortDesc := false },
       { dataSort := some "b".toList, sortAsc := true, sortDesc := false }] := by
  refine ⟨by decide, ?_, ?_, ?_⟩ <;> rfl

/-- Preprocessing leaves a plain key as it is. -/
theorem cssPreprocessFrom_plain (column : JSString) (h : isCssPlain column = true) :
    cssPreprocessFrom false column = column := by
  induction column with
  | nil => rfl
  | cons c cs ih =>
    simp only [isCssPlain, List.all_cons, Bool.and_eq_true, Bool.not_eq_true', Bool.or_eq_false_iff] at h
    obtain ⟨⟨⟨⟨⟨⟨_, _⟩, _⟩, h3⟩, h4⟩, h5⟩, hcs⟩ := h
    have ih' := ih (by simpa [isCssPlain] using hcs)
    simp [cssPreprocessFrom, h3, h4, h5, ih']

/-- The tokenizer reads a plain key character by character. -/
theorem cssStringRun_plain (column acc : JSString) (h : isCssPlain column = true) :
    cssStringRun (.normal acc) column = some (.normal (acc ++ column)) := by
  induction column generalizing acc with
  | nil => simp [cssStringRun]
  | cons c cs ih =>
    simp only [isCssPlain, List.all_cons, Bool.and_eq_true, Bool.not_eq_true', Bool.or_eq_false_iff] at h
    obtain ⟨⟨⟨⟨⟨⟨h1, h2⟩, h3⟩, _⟩, _⟩, _⟩, hcs⟩ := h
    have hnl : (c == '\n') = false := by
      rw [beq_eq_false_iff_ne] at h3 ⊢
      intro hc
      exact h3 (by rw [hc]; rfl)
    have hstep : cssStringStep (.normal acc) c = .normal (acc ++ [c]) := by
      simp [cssStringStep, h1, h2, hnl]
    rw [cssStringRun, hstep]
    simp only
    rw [ih (acc ++ [c]) (by simpa [isCssPlain] using hcs)]
    simp

/-- For a plain key the template literal selects the `th` whose `data-sort` is the key. -/
theorem sortSelector_plain (column : JSString) (h : isCssPlain column = true) :
    sortSelector column = .attrEquals column := by
  simp [sortSelector, cssPreprocess, cssPreprocessFrom_plain column h, cssStringRun_plain column [] h]

/-- The outcome of `sortTable` when the header is found, every row has the cell and the
selector denotes the key itself. -/
theorem sortTable_ths_plain (host : Host) (table : Table) (column : JSString)
    (rows : List Row) (rest : List (List Row)) (i : ℕ)
    (hb : table.tbodies = rows :: rest)
    (hi : findIndex (fun th => th.dataSort == some column) table.ths = some i)
    (hcells : ∀ row ∈ rows, i < row.cells.length)
    (hsel : sortSelector column = .attrEquals column) :
    sortTable host table column =
      ⟨{ ths := modifyAt (addSortIndicator (isAscending table)) i (clearSortIndicators table.ths),
         tbodies := arraySort (compareRows host (isAscending table) i) rows :: rest,
         sortOrder := some (if isAscending table then "asc".toList else "desc".toList) }, false⟩ := by
  have hany : rows.any (fun row => decide (row.cells.length ≤ i)) = false := by
    rw [List.any_eq_false]
    intro row hrow
    simpa using hcells row hrow
  have hq : querySortHeader host (clearSortIndicators table.ths) column = some (some i) := by
    simp only [querySortHeader, hsel]
    rw [findSortHeader_congr _ _ _ (map_dataSort_clearSortIndicators table.ths), hi]
  unfold sortTable
  rw [hb]
  dsimp only
  rw [hi]
  dsimp only
  rw [hany, Bool.and_false]
  simp only [Bool.false_eq_true, if_false]
  rw [hq]

/-- For a column key without a character that is special in a CSS string, the indicators are as
intended: the call returns, the header of the column carries `sort-asc` alone after an ascending
call and `sort-desc` alone after a descending one, and every other sortable header carries
neither. -/
theorem sortTable_indicators_plain (host : Host) (table : Table) (column : JSString)
    (rows : List Row) (rest : List (List Row)) (i : ℕ)
    (hb : table.tbodies = rows :: rest)
    (hi : findIndex (fun th => th.dataSort == some column) table.ths = some i)
    (hcells : ∀ row ∈ rows, i < row.cells.length)
    (hplain : isCssPlain column = true) :
    (sortTable host table column).threw = false ∧
    ∀ (j : ℕ) (th : Th), (sortTable host table column).state.ths[j]? = some th →
      th.dataSort.isSome = true →
      (j = i → th.sortAsc = isAscending table ∧ th.sortDesc = !isAscending table) ∧
      (j ≠ i → th.sortAsc = false ∧ th.sortDesc = false) := by
  rw [sortTable_ths_plain host table column rows rest i hb hi hcells (sortSelector_plain column hplain)]
  refine ⟨rfl, ?_⟩
  intro j th hj hsome
  simp only [getElem?_modifyAt, clearSortIndicators, List.getElem?_map] at hj
  refine ⟨?_, ?_⟩
  · intro hji
    rw [if_pos hji] at hj
    cases hold : table.ths[j]? with
    | none => simp [hold] at hj
    | some old =>
      simp only [hold, Option.map_some', Option.some.injEq] at hj
      subst hj
      have hds : old.dataSort.isSome = true := by
        have := hsome
        rw [addSortIndicator_dataSort] at this
        split at this <;> simpa using this
      cases hasc : isAscending table <;> simp [addSortIndicator, hds]
  · intro hji
    rw [if_neg hji] at hj
    cases hold : table.ths[j]? with
    | none => simp [hold] at hj
    | some old =>
      simp only [hold, Option.map_some', Option.some.injEq] at hj
      subst hj
      have hds : old.dataSort.isSome = true := by
        have := hsome
        split at this <;> simpa using this
      simp [hds]

/-! ## The counter animation: completion -/

/-- Before `1000` ms have elapsed `updateNumber` requests another frame. -/
theorem updateNumber_before (host : Host) (anim : Animation) (t : ℚ)
    (h : t - anim.startTime < 1000) : (updateNumber host anim t).frameRequested = true := by
  have hp : min ((t - anim.startTime) / 1000) 1 < 1 := by
    apply min_lt_of_left_lt
    rw [div_lt_one (by norm_num)]
    exact h
  simp only [updateNumber, hp, if_true]

/-- Once `1000` ms have elapsed `updateNumber` writes the final string and requests no frame. -/
theorem updateNumber_done (host : Host) (anim : Animation) (t : ℚ)
    (h : 1000 ≤ t - anim.startTime) :
    updateNumber host anim t = { textContent := anim.finalValue, frameRequested := false } := by
  have hp : ¬ min ((t - anim.startTime) / 1000) 1 < 1 := by
    rw [not_lt]
    apply le_min _ (le_refl 1)
    rw [one_le_div (by norm_num)]
    exact h
  simp only [updateNumber, hp, if_false]

/-- Frames before `1000` ms have elapsed keep a frame requested. -/
theorem runFrames_before (host : Host) (anim : Animation) (times : List ℚ) (counter : Counter)
    (hreq : counter.frameRequested = true)
    (h : ∀ t ∈ times, t - anim.startTime < 1000) :
    (runFrames host anim counter times).frameRequested = true := by
  induction times generalizing counter with
  | nil => exact hreq
  | cons t ts ih =>
    have hstep : frame host anim counter t = updateNumber host anim t := by
      simp [frame, hreq]
    have : runFrames host anim counter (t :: ts) = runFrames host anim (frame host anim counter t) ts :=
      rfl
    rw [this, hstep]
    exact ih _ (updateNumber_before host anim t (h t (List.mem_cons_self t ts)))
      (fun u hu => h u (List.mem_cons_of_mem t hu))

/-- Without a pending request, frames change nothing. -/
theorem runFrames_idle (host : Host) (anim : Animation) (times : List ℚ) (counter : Counter)
    (hreq : counter.frameRequested = false) : runFrames host anim counter times = counter := by
  induction times with
  | nil => rfl
  | cons t ts ih =>
    have : runFrames host anim counter (t :: ts) = runFrames host anim (frame host anim counter t) ts :=
      rfl
    rw [this]
    have hstep : frame host anim counter t = counter := by simp [frame, hreq]
    rw [hstep, ih]

/-- The frames of two lists delivered one list after the other. -/
theorem runFrames_append (host : Host) (anim : Animation) (counter : Counter) (xs ys : List ℚ) :
    runFrames host anim counter (xs ++ ys) = runFrames host anim (runFrames host anim counter xs) ys := by
  simp [runFrames, List.foldl_append]

/-- Claim C5. Let the final string parse to a number, let the frames `early` all come before
`1000` ms have elapsed since the call, and let `t` be the first frame at which the elapsed time
reaches `1000` ms.  Then `animateNumber` requests a frame; after every frame of `early` another
frame is requested; the frame `t` sets the text to the final string itself and requests no frame;
and the frames after `t` change nothing.  The text at completion is the final string whatever the
frames of `early` were. -/
theorem animateNumber_snaps (host : Host) (now : ℚ) (initialText finalValue : JSString)
    (early later : List ℚ) (t : ℚ)
    (hparse : (parseFloat (stripNonNumeric finalValue)).isNaN = false)
    (hearly : ∀ e ∈ early, e - now < 1000)
    (ht : 1000 ≤ t - now) :
    ∃ anim : Animation, animateNumber now finalValue = some anim ∧
      animateNumberStart now initialText finalValue =
        { textContent := initialText, frameRequested := true } ∧
      (∀ shown : List ℚ, shown <+: early →
        (runFrames host anim (animateNumberStart now initialText finalValue) shown).frameRequested
          = true) ∧
      runFrames host anim (animateNumberStart now initialText finalValue) (early ++ [t]) =
        { textContent := finalValue, frameRequested := false } ∧
      runFrames host anim (animateNumberStart now initialText finalValue) (early ++ t :: later) =
        { textContent := finalValue, frameRequested := false } := by
  have hanim : animateNumber now finalValue =
      some { finalValue := finalValue, numericValue := parseFloat (stripNonNumeric finalValue),
             startTime := now } := by
    simp [animateNumber, hparse]
  have hstart : animateNumberStart now initialText finalValue =
      { textContent := initialText, frameRequested := true } := by
    simp [animateNumberStart, hanim]
  refine ⟨_, hanim, hstart, ?_, ?_, ?_⟩
  · intro shown hshown
    apply runFrames_before
    · rw [hstart]
    · intro e he
      exact hearly e (hshown.subset he)
  · rw [runFrames_append]
    have hreq := runFrames_before host
      { finalValue := finalValue, numericValue := parseFloat (stripNonNumeric finalValue),
        startTime := now } early (animateNumberStart now initialText finalValue)
      (by rw [hstart]) hearly
    simp only [runFrames, List.foldl_cons, List.foldl_nil] at hreq ⊢
    rw [frame, if_pos hreq]
    exact updateNumber_done host _ t ht
  · have hsplit : early ++ t :: later = (early ++ [t]) ++ later := by simp
    rw [hsplit, runFrames_append]
    have hreq := runFrames_before host
      { finalValue := finalValue, numericValue := parseFloat (stripNonNumeric finalValue),
        startTime := now } early (animateNumberStart now initialText finalValue)
      (by rw [hstart]) hearly
    have hdone : runFrames host
        { finalValue := finalValue, numericValue := parseFloat (stripNonNumeric finalValue),
          startTime := now } (animateNumberStart now initialText finalValue) (early ++ [t]) =
        { textContent := finalValue, frameRequested := false } := by
      rw [runFrames_append]
      simp only [runFrames, List.foldl_cons, List.foldl_nil] at hreq ⊢
      rw [frame, if_pos hreq]
      exact updateNumber_done host _ t ht
    rw [hdone]
    exact runFrames_idle host _ later _ rfl

/-- The final string `R$ 1.234,56` with frames at 16, 500, 983, 1000 and 1016 ms. -/
theorem animateNumber_snaps_witness :
    ∃ anim : Animation, animateNumber 0 "R$ 1.234,56".toList = some anim ∧
      animateNumberStart 0 "R$ 0,00".toList "R$ 1.234,56".toList =
        { textContent := "R$ 0,00".toList, frameRequested := true } ∧
      (∀ shown : List ℚ, shown <+: [16, 500, 983] →
        (runFrames asciiHost anim (animateNumberStart 0 "R$ 0,00".toList "R$ 1.234,56".toList)
          shown).frameRequested = true) ∧
      runFrames asciiHost anim (animateNumberStart 0 "R$ 0,00".toList "R$ 1.234,56".toList)
          ([16, 500, 983] ++ [1000]) =
        { textContent := "R$ 1.234,56".toList, frameRequested := false } ∧
      runFrames asciiHost anim (animateNumberStart 0 "R$ 0,00".toList "R$ 1.234,56".toList)
          ([16, 500, 983] ++ 1000 :: [1016]) =
        { textContent := "R$ 1.234,56".toList, frameRequested := false } :=
  animateNumber_snaps asciiHost 0 "R$ 0,00".toList "R$ 1.234,56".toList [16, 500, 983] [1016] 1000
    (by simp [parseFloat, stripNonNumeric, parseUnsigned, isDigit, isJSWhiteSpace, digitsValue,
          exponentPart, JSNum.isNaN])
    (by intro e he; simp at he; rcases he with rfl | rfl | rfl <;> norm_num)
    (by norm_num)

/-! ## The counter animation: unparseable strings -/

/-- The three final strings `""`, `"N/A"` and `"-"` strip to texts that `parseFloat` reads as
`NaN`. -/
theorem unparseable_examples :
    (parseFloat (stripNonNumeric "".toList)).isNaN = true ∧
    (parseFloat (stripNonNumeric "N/A".toList)).isNaN = true ∧
    (parseFloat (stripNonNumeric "-".toList)).isNaN = true := by
  refine ⟨?_, ?_, ?_⟩ <;> decide

/-- Claim C11. When the final string, stripped of every character other than digits, `.` and `-`,
does not parse to a number, `animateNumber` returns at the `isNaN` test: it builds no closure, the
text of the element and the state of its frame request are as before, and on an element without a
pending request none is made.  The strings `""`, `"N/A"` and `"-"` are of this kind. -/
theorem animateNumber_unparseable :
    (∀ (now : ℚ) (counter : Counter) (finalValue : JSString),
      (parseFloat (stripNonNumeric finalValue)).isNaN = true →
      animateNumber now finalValue = none ∧
      animateCounter now counter finalValue = counter ∧
      animateNumberStart now counter.textContent finalValue =
        { textContent := counter.textContent, frameRequested := false }) ∧
    (∀ now : ℚ, animateNumber now "".toList = none ∧ animateNumber now "N/A".toList = none ∧
      animateNumber now "-".toList = none) := by
  have key : ∀ (now : ℚ) (finalValue : JSString),
      (parseFloat (stripNonNumeric finalValue)).isNaN = true →
      animateNumber now finalValue = none := by
    intro now finalValue h
    simp [animateNumber, h]
  refine ⟨?_, ?_⟩
  · intro now counter finalValue h
    refine ⟨key now finalValue h, ?_, ?_⟩
    · simp [animateCounter, key now finalValue h]
    · simp [animateNumberStart, key now finalValue h]
  · intro now
    exact ⟨key now _ unparseable_examples.1, key now _ unparseable_examples.2.1,
      key now _ unparseable_examples.2.2⟩

/-- The text `N/A` in an element that shows `N/A`: the call changes nothing. -/
theorem animateNumber_unparseable_witness :
    animateCounter 0 { textContent := "N/A".toList, frameRequested := false } "N/A".toList =
      { textContent := "N/A".toList, frameRequested := false } :=
  (animateNumber_unparseable.1 0 { textContent := "N/A".toList, frameRequested := false }
    "N/A".toList unparseable_examples.2.1).2.1

/-! ## The tax computation: default rates -/

/-- A missing or empty input reads as the default. -/
theorem parseFloatOr_default (v : Option JSString) (d : ℚ) (h : v = none ∨ v = some []) :
    parseFloatOr v d = .fin d := by
  rcases h with rfl | rfl <;> rfl

/-- Claim C12. When the inputs `irRate`, `inssRate` and `issRate` are missing or empty,
`calculateTaxes` takes the rates `27.5`, `11` and `5`: for a gross amount `g` the five results are,
in exact arithmetic, `0.275*g`, `0.11*g`, `0.05*g`, `0.435*g` and `0.565*g`.  When the input
`grossAmount` is missing or empty the gross amount is `0`, and the five results are `0` for the
default rates as for any other rates that read as numbers. -/
theorem calculateTaxes_defaults :
    (∀ (page : Page) (g : ℚ),
      (inputValue page "irRate".toList = none ∨ inputValue page "irRate".toList = some []) →
      (inputValue page "inssRate".toList = none ∨ inputValue page "inssRate".toList = some []) →
      (inputValue page "issRate".toList = none ∨ inputValue page "issRate".toList = some []) →
      parseFloatOr (inputValue page "grossAmount".toList) 0 = .fin g →
      taxBreakdown page =
        { irAmount := .fin (0.275 * g), inssAmount := .fin (0.11 * g),
          issAmount := .fin (0.05 * g), totalTaxes := .fin (0.435 * g),
          netAmount := .fin (0.565 * g) }) ∧
    (∀ (page : Page) (rIr rInss rIss : ℚ),
      (inputValue page "grossAmount".toList = none ∨
        inputValue page "grossAmount".toList = some []) →
      parseFloatOr (inputValue page "irRate".toList) (55 / 2) = .fin rIr →
      parseFloatOr (inputValue page "inssRate".toList) 11 = .fin rInss →
      parseFloatOr (inputValue page "issRate".toList) 5 = .fin rIss →
      parseFloatOr (inputValue page "grossAmount".toList) 0 = .fin 0 ∧
      taxBreakdown page =
        { irAmount := .fin 0, inssAmount := .fin 0, issAmount := .fin 0, totalTaxes := .fin 0,
          netAmount := .fin 0 }) := by
  refine ⟨?_, ?_⟩
  · intro page g hIr hInss hIss hg
    rw [taxBreakdown, hg, parseFloatOr_default _ _ hIr, parseFloatOr_default _ _ hInss,
      parseFloatOr_default _ _ hIss, taxesOf_fin]
    congr 2 <;> ring
  · intro page rIr rInss rIss hg hIr hInss hIss
    have hg0 := parseFloatOr_default _ 0 hg
    refine ⟨hg0, ?_⟩
    rw [taxBreakdown, hg0, hIr, hInss, hIss, taxesOf_fin]
    norm_num

/-- The gross amount `2000` with the three rate inputs missing: `550`, `220`, `100`, `870` and
`1130`. -/
theorem calculateTaxes_defaults_witness :
    taxBreakdown grossOnlyPage =
      { irAmount := .fin (0.275 * 2000), inssAmount := .fin (0.11 * 2000),
        issAmount := .fin (0.05 * 2000), totalTaxes := .fin (0.435 * 2000),
        netAmount := .fin (0.565 * 2000) } :=
  calculateTaxes_defaults.1 grossOnlyPage 2000 (Or.inl (by decide)) (Or.inl (by decide))
    (Or.inl (by decide))
    (by simp [parseFloatOr, inputValue, getElementById, grossOnlyPage, inputOf, findIndex,
          parseFloat, parseUnsigned, isDigit, isJSWhiteSpace, digitsValue, exponentPart])

/-! ## The session total -/

/-- The three values on finite inputs, in closed form. -/
theorem sessionTotalsOf_fin (c v m : ℚ) :
    sessionTotalsOf (.fin c) (.fin v) (.fin m) =
      { completedValue := .fin (c * v), remainingValue := .fin ((m - c) * v),
        totalValue := .fin (c * v + (m - c) * v) } := by
  simp [sessionTotalsOf, JSNum.mul, JSNum.add, JSNum.sub, JSNum.neg, sub_eq_add_neg]

/-- A missing or empty input reads as the default under `parseInt`. -/
theorem parseIntOr_default (v : Option JSString) (d : ℤ) (h : v = none ∨ v = some []) :
    parseIntOr v d = .fin d := by
  rcases h with rfl | rfl <;> rfl

/-- The inputs of the example page read as ten sessions at `150.5`, with the default maximum. -/
theorem sessionPage_inputs :
    parseIntOr (inputValue sessionPage "sessionCount".toList) 0 = .fin 10 ∧
    parseFloatOr (inputValue sessionPage "sessionValue".toList) 0 = .fin (301 / 2) ∧
    parseIntOr (inputValue sessionPage "maxSessions".toList) 8 = .fin 8 := by
  refine ⟨?_, ?_, ?_⟩
  · simp [parseIntOr, inputValue, getElementById, sessionPage, inputOf, findIndex, parseInt,
      parseIntUnsigned, isDigit, isJSWhiteSpace, digitsValue]
  · simp [parseFloatOr, inputValue, getElementById, sessionPage, inputOf, findIndex, parseFloat,
      parseUnsigned, isDigit, isJSWhiteSpace, digitsValue, exponentPart]
    norm_num
  · simp [parseIntOr, inputValue, getElementById, sessionPage, inputOf, findIndex]

/-- The function `updateDisplay`, with the change of the element named. -/
theorem updateDisplay_eq (host : Host) (page : Page) (elementId : JSString) (value : JSNum) :
    updateDisplay host page elementId value =
      match getElementById page elementId with
      | none => page
      | some i => { page with elements := modifyAt (displayIn host value) i page.elements } :=
  rfl

/-- `updateDisplay` changes no id. -/
theorem updateDisplay_ids (host : Host) (page : Page) (elementId : JSString) (value : JSNum) :
    (updateDisplay host page elementId value).elements.map (fun e => e.id) =
      page.elements.map (fun e => e.id) := by
  rw [updateDisplay_eq]
  split
  · rfl
  · dsimp only
    apply map_modifyAt
    intro e
    simp only [displayIn]
    split <;> rfl

/-- `updateDisplay` sets no timer. -/
theorem updateDisplay_timers (host : Host) (page : Page) (elementId : JSString) (value : JSNum) :
    (updateDisplay host page elementId value).timers = page.timers := by
  rw [updateDisplay_eq]
  split <;> rfl

/-- The elements after `updateDisplay`, position by position. -/
theorem getElem?_updateDisplay (host : Host) (page : Page) (elementId : JSString)
    (value : JSNum) (j : ℕ) :
    (updateDisplay host page elementId value).elements[j]? =
      if getElementById page elementId = some j then
        (page.elements[j]?).map (displayIn host value)
      else page.elements[j]? := by
  rw [updateDisplay_eq]
  cases hfind : getElementById page elementId with
  | none => simp
  | some i =>
    simp only [getElem?_modifyAt, Option.some.injEq]
    by_cases hji : j = i
    · subst hji; simp
    · have hij : ¬ i = j := fun h => hji h.symm
      simp [hji, hij]

/-- Claim C16. When the inputs read as the session count `c`, the value `v` of a session and the
maximum `m`, `calculateSessionTotal` computes in exact arithmetic `completedValue = c*v`,
`remainingValue = (m - c)*v` and `totalValue = completedValue + remainingValue`, which is `m*v`
whatever `c` is, and hands them to `updateDisplay`: after the call the elements with the ids
`completedValue`, `remainingValue` and `totalValue`, where present, show `c*v`, `(m - c)*v` and
`m*v`, every other element is as before and no timer is set.  When `c` exceeds `m` and `v` is
positive the remaining value is negative: it is not clamped to `0`.  When the input `maxSessions`
is missing or empty, `m` is `8`. -/
theorem calculateSessionTotal_amounts :
    (∀ (host : Host) (page : Page) (c v m : ℚ),
      parseIntOr (inputValue page "sessionCount".toList) 0 = .fin c →
      parseFloatOr (inputValue page "sessionValue".toList) 0 = .fin v →
      parseIntOr (inputValue page "maxSessions".toList) 8 = .fin m →
      sessionTotals page =
        { completedValue := .fin (c * v), remainingValue := .fin ((m - c) * v),
          totalValue := .fin (c * v + (m - c) * v) } ∧
      c * v + (m - c) * v = m * v ∧
      (sessionTotals page).totalValue = .fin (m * v) ∧
      (m < c → 0 < v → (m - c) * v < 0) ∧
      (calculateSessionTotal host page).timers = page.timers ∧
      ∀ j : ℕ, (calculateSessionTotal host page).elements[j]? =
        if getElementById page "completedValue".toList = some j then
          (page.elements[j]?).map (displayIn host (.fin (c * v)))
        else if getElementById page "remainingValue".toList = some j then
          (page.elements[j]?).map (displayIn host (.fin ((m - c) * v)))
        else if getElementById page "totalValue".toList = some j then
          (page.elements[j]?).map (displayIn host (.fin (m * v)))
        else page.elements[j]?) ∧
    (∀ page : Page,
      (inputValue page "maxSessions".toList = none ∨
        inputValue page "maxSessions".toList = some []) →
      parseIntOr (inputValue page "maxSessions".toList) 8 = .fin 8) := by
  refine ⟨?_, ?_⟩
  · intro host page c v m hc hv hm
    have h : sessionTotals page =
        { completedValue := .fin (c * v), remainingValue := .fin ((m - c) * v),
          totalValue := .fin (c * v + (m - c) * v) } := by
      rw [sessionTotals, hc, hv, hm, sessionTotalsOf_fin]
    have htotal : c * v + (m - c) * v = m * v := by ring
    have keep : ∀ (p : Page) (elementId : JSString) (value : JSNum),
        getElementById (updateDisplay host p elementId value) = getElementById p := by
      intro p elementId value
      funext x
      exact getElementById_congr _ _ _ (updateDisplay_ids host p elementId value)
    refine ⟨h, htotal, ?_, ?_, ?_, ?_⟩
    · rw [h, ← htotal]
    · intro hmc hv0
      exact mul_neg_of_neg_of_pos (sub_neg.mpr hmc) hv0
    · simp only [calculateSessionTotal, updateDisplay_timers]
    · intro j
      simp only [calculateSessionTotal, getElem?_updateDisplay, keep, h, htotal]
      by_cases h1 : getElementById page "completedValue".toList = some j
      · have h2 := getElementById_ne page _ "remainingValue".toList j (by decide) h1
        have h3 := getElementById_ne page _ "totalValue".toList j (by decide) h1
        simp only [h1, h2, h3, if_true, if_false]
      · by_cases h2 : getElementById page "remainingValue".toList = some j
        · have h3 := getElementById_ne page _ "totalValue".toList j (by decide) h2
          simp only [h1, h2, h3, if_true, if_false]
        · simp only [h1, h2, if_false]
  · intro page h
    have := parseIntOr_default _ 8 h
    simpa using this

/-- The inputs of the example form read as ten sessions at `150.5`, with the default maximum. -/
theorem sessionFormPage_inputs :
    parseIntOr (inputValue sessionFormPage "sessionCount".toList) 0 = .fin 10 ∧
    parseFloatOr (inputValue sessionFormPage "sessionValue".toList) 0 = .fin (301 / 2) ∧
    parseIntOr (inputValue sessionFormPage "maxSessions".toList) 8 = .fin 8 := by
  refine ⟨?_, ?_, ?_⟩
  · simp [parseIntOr, inputValue, getElementById, sessionFormPage, inputOf, spanOf, findIndex,
      parseInt, parseIntUnsigned, isDigit, isJSWhiteSpace, digitsValue]
  · simp [parseFloatOr, inputValue, getElementById, sessionFormPage, inputOf, spanOf, findIndex,
      parseFloat, parseUnsigned, isDigit, isJSWhiteSpace, digitsValue, exponentPart]
    norm_num
  · simp [parseIntOr, inputValue, getElementById, sessionFormPage, inputOf, spanOf, findIndex]

/-- Ten sessions at `150.5` with the default maximum of `8`: after the call the `span` with the
id `totalValue` shows `8 * 150.5` and the `input` with the id `remainingValue` holds
`(8 - 10) * 150.5`, which is negative. -/
theorem calculateSessionTotal_amounts_witness :
    (calculateSessionTotal asciiHost sessionFormPage).elements[2]? =
      some (displayIn asciiHost (.fin (8 * (301 / 2))) (spanOf "totalValue")) ∧
    (calculateSessionTotal asciiHost sessionFormPage).elements[3]? =
      some (displayIn asciiHost (.fin ((8 - 10) * (301 / 2))) (inputOf "remainingValue" "")) ∧
    ((8 : ℚ) - 10) * (301 / 2) < 0 := by
  have h := calculateSessionTotal_amounts.1 asciiHost sessionFormPage 10 (301 / 2) 8
    sessionFormPage_inputs.1 sessionFormPage_inputs.2.1 sessionFormPage_inputs.2.2
  have g1 : getElementById sessionFormPage "completedValue".toList = none := by decide
  have g2 : getElementById sessionFormPage "remainingValue".toList = some 3 := by decide
  have g3 : getElementById sessionFormPage "totalValue".toList = some 2 := by decide
  refine ⟨?_, ?_, h.2.2.2.1 (by norm_num) (by norm_num)⟩
  · rw [h.2.2.2.2.2 2, g1, g2, g3]
    rfl
  · rw [h.2.2.2.2.2 3, g1, g2]
    rfl

/-! ## The comparator on mixed columns -/

/-- The cells `z1` and `a2` read as the numbers `1` and `2`; the cell `m` reads as `NaN`. -/
theorem cellNumber_mixed :
    cellNumber 0 (rowOf "z1") = .fin 1 ∧ cellNumber 0 (rowOf "a2") = .fin 2 ∧
    cellNumber 0 (rowOf "m") = .nan := by
  refine ⟨?_, ?_, ?_⟩ <;>
  simp [cellNumber, cellValue, rowOf, trim, parseFloat, stripNonNumeric, parseUnsigned, isDigit,
    isJSWhiteSpace, digitsValue, exponentPart]

/-- The trimmed texts of the three cells. -/
theorem cellValue_mixed :
    cellValue 0 (rowOf "z1") = "z1".toList ∧ cellValue 0 (rowOf "a2") = "a2".toList ∧
    cellValue 0 (rowOf "m") = "m".toList := by
  refine ⟨?_, ?_, ?_⟩ <;> decide

/-- Claim C15. The ascending comparator of `sortTable` is not transitive on a column that mixes
numeric and other texts.  With the cells `a = "z1"`, `b = "a2"` and `c = "m"`, and a
`localeCompare` that puts `a2` before `m` and `m` before `z1` (as every ordering by first letter
does), the comparator is negative on `(a, b)`, where it compares `1` with `2`, and negative on
`(b, c)` and on `(c, a)`, where it compares strings.  No arrangement of the three rows has `a`
before `b`, `b` before `c` and `c` before `a`. -/
theorem compareRows_not_transitive (host : Host)
    (hbc : host.localeCompare "a2".toList "m".toList < 0)
    (hca : host.localeCompare "m".toList "z1".toList < 0) :
    (compareRows host true 0 (rowOf "z1") (rowOf "a2")).isNeg = true ∧
    (compareRows host true 0 (rowOf "a2") (rowOf "m")).isNeg = true ∧
    (compareRows host true 0 (rowOf "m") (rowOf "z1")).isNeg = true ∧
    ∀ order : List Row,
      ¬ (order.indexOf (rowOf "z1") < order.indexOf (rowOf "a2") ∧
         order.indexOf (rowOf "a2") < order.indexOf (rowOf "m") ∧
         order.indexOf (rowOf "m") < order.indexOf (rowOf "z1")) := by
  obtain ⟨na, nb, nc⟩ := cellNumber_mixed
  obtain ⟨va, vb, vc⟩ := cellValue_mixed
  simp only [cellNumber] at na nb nc
  rw [va] at na
  rw [vb] at nb
  rw [vc] at nc
  refine ⟨?_, ?_, ?_, ?_⟩
  · unfold compareRows
    dsimp only
    rw [va, vb, na, nb]
    simp [JSNum.isNaN, JSNum.sub, JSNum.add, JSNum.neg, JSNum.isNeg]
  · unfold compareRows
    dsimp only
    rw [vb, vc, nb, nc]
    simpa [JSNum.isNaN, JSNum.isNeg] using hbc
  · unfold compareRows
    dsimp only
    rw [vc, va, nc, na]
    simpa [JSNum.isNaN, JSNum.isNeg] using hca
  · intro order h
    omega

/-- Under the ordering by first letter the three comparisons hold. -/
theorem compareRows_not_transitive_witness :
    (compareRows firstLetterHost true 0 (rowOf "z1") (rowOf "a2")).isNeg = true ∧
    (compareRows firstLetterHost true 0 (rowOf "a2") (rowOf "m")).isNeg = true ∧
    (compareRows firstLetterHost true 0 (rowOf "m") (rowOf "z1")).isNeg = true :=
  ⟨(compareRows_not_transitive firstLetterHost (by decide) (by decide)).1,
   (compareRows_not_transitive firstLetterHost (by decide) (by decide)).2.1,
   (compareRows_not_transitive firstLetterHost (by decide) (by decide)).2.2.1⟩

/-! ## The table sort: amounts in Brazilian format -/

/-- A character of white space is none of the characters that `stripNonNumeric` keeps. -/
theorem not_numeric_of_whiteSpace (c : Char) (h : isJSWhiteSpace c = true) :
    (isDigit c || c == '.' || c == '-') = false := by
  have hdot : c ≠ '.' := by rintro rfl; revert h; decide
  have hminus : c ≠ '-' := by rintro rfl; revert h; decide
  have hdigit : isDigit c = false := by
    simp only [isJSWhiteSpace, Bool.or_eq_true, beq_iff_eq, Bool.and_eq_true,
      decide_eq_true_eq] at h
    simp only [isDigit, Bool.and_eq_false_iff, decide_eq_false_iff_not]
    omega
  simp [hdigit, hdot, hminus]

/-- Dropping a prefix of characters that a filter rejects does not change what the filter
keeps. -/
theorem filter_dropWhile {α : Type} (p q : α → Bool) (h : ∀ a, q a = true → p a = false)
    (l : List α) : (l.dropWhile q).filter p = l.filter p := by
  induction l with
  | nil => rfl
  | cons a l ih =>
    by_cases hq : q a = true
    · simp [List.dropWhile, hq, ih, h a hq]
    · simp [List.dropWhile, hq]

/-- The method `trim` removes nothing that `stripNonNumeric` keeps. -/
theorem stripNonNumeric_trim (s : JSString) : stripNonNumeric (trim s) = stripNonNumeric s := by
  simp only [stripNonNumeric, trim, List.filter_reverse]
  rw [filter_dropWhile _ _ not_numeric_of_whiteSpace, List.filter_reverse, List.reverse_reverse,
    filter_dropWhile _ _ not_numeric_of_whiteSpace]

/-- A digit is neither white space, nor a sign, nor the letter `I`. -/
theorem digit_facts (d : Char) (h : isDigit d = true) :
    isJSWhiteSpace d = false ∧ d ≠ '-' ∧ d ≠ '+' ∧ d ≠ 'I' := by
  refine ⟨?_, ?_, ?_, ?_⟩
  · simp only [isDigit, Bool.and_eq_true, decide_eq_true_eq] at h
    simp only [isJSWhiteSpace, Bool.or_eq_false_iff, beq_eq_false_iff_ne, ne_eq,
      Bool.and_eq_false_iff, decide_eq_false_iff_not]
    omega
  · rintro rfl; revert h; decide
  · rintro rfl; revert h; decide
  · rintro rfl; revert h; decide

/-- A non-empty run of digits parses to its value. -/
theorem parseFloat_digits (d : Char) (ds : JSString) (hd : isDigit d = true)
    (hds : ∀ c ∈ ds, isDigit c = true) :
    parseFloat (d :: ds) = .fin (digitsValue (d :: ds) : ℚ) := by
  obtain ⟨hws, hminus, hplus, hI⟩ := digit_facts d hd
  have hall : ∀ c ∈ d :: ds, isDigit c = true := by
    intro c hc
    rcases List.mem_cons.mp hc with rfl | hc
    · exact hd
    · exact hds c hc
  have htake : (d :: ds).takeWhile isDigit = d :: ds := List.takeWhile_eq_self_iff.mpr hall
  have hdrop : (d :: ds).dropWhile isDigit = [] := List.dropWhile_eq_nil_iff.mpr hall
  have hinf : "Infinity".toList.isPrefixOf (d :: ds) = false := by
    show ('I' :: "nfinity".toList).isPrefixOf (d :: ds) = false
    simp [List.isPrefixOf, Ne.symm hI]
  have hun : parseUnsigned (d :: ds) = some (.fin (digitsValue (d :: ds) : ℚ)) := by
    unfold parseUnsigned
    rw [hinf]
    simp only [Bool.false_eq_true, if_false, htake, hdrop]
    simp [exponentPart]
  have hws' : (d :: ds).dropWhile isJSWhiteSpace = d :: ds := by
    simp [List.dropWhile, hws]
  unfold parseFloat
  rw [hws']
  split
  · rename_i heq; cases heq; exact absurd rfl hminus
  · rename_i heq; cases heq; exact absurd rfl hplus
  · rw [hun]; rfl

/-- The value of a run of digits followed by one more digit. -/
theorem digitsValue_append_singleton (ds : JSString) (c : Char) :
    digitsValue (ds ++ [c]) = 10 * digitsValue ds + (c.toNat - 48) := by
  simp [digitsValue, List.foldl_append]

/-- The value of a run of digits followed by two more digits. -/
theorem digitsValue_append_pair (ds : JSString) (c1 c2 : Char) :
    digitsValue (ds ++ [c1, c2]) = 100 * digitsValue ds + digitsValue [c1, c2] := by
  have h : ds ++ [c1, c2] = (ds ++ [c1]) ++ [c2] := by simp
  rw [h, digitsValue_append_singleton, digitsValue_append_singleton]
  simp only [digitsValue, List.foldl_cons, List.foldl_nil]
  ring

/-- What `stripNonNumeric` leaves of a text in the format of the Real without separator of
thousands: the digits, the comma dropped. -/
theorem stripNonNumeric_brlText (whole : JSString) (c1 c2 : Char)
    (hw : ∀ c ∈ whole, isDigit c = true) (h1 : isDigit c1 = true) (h2 : isDigit c2 = true) :
    stripNonNumeric (brlText whole c1 c2) = whole ++ [c1, c2] := by
  have hwhole : whole.filter (fun c => isDigit c || c == '.' || c == '-') = whole := by
    rw [List.filter_eq_self]
    intro c hc
    simp [hw c hc]
  have hprefix : "R$ ".toList.filter (fun c => isDigit c || c == '.' || c == '-') = [] := by
    decide
  have htail : [',', c1, c2].filter (fun c => isDigit c || c == '.' || c == '-') = [c1, c2] := by
    have hcomma : isDigit ',' = false := by decide
    simp [List.filter, hcomma, h1, h2]
  simp only [stripNonNumeric, brlText, List.filter_append, hwhole, hprefix, htail,
    List.nil_append]

/-- The number `sortTable` reads in a cell in the format of the Real without separator of
thousands is `100` times the amount. -/
theorem cellNumber_brlText (i : ℕ) (row : Row) (whole : JSString) (c1 c2 : Char)
    (hne : whole ≠ []) (hw : ∀ c ∈ whole, isDigit c = true) (h1 : isDigit c1 = true)
    (h2 : isDigit c2 = true) (hcell : row.cells[i]? = some (brlText whole c1 c2)) :
    cellNumber i row = .fin (100 * brlAmount whole c1 c2) := by
  have hget : row.cells.getD i [] = brlText whole c1 c2 := by
    rw [List.getD_eq_getElem?_getD, hcell]
    rfl
  have hfilter : whole.filter isDigit = whole := by
    rw [List.filter_eq_self]
    exact hw
  rw [cellNumber, cellValue, hget, stripNonNumeric_trim, stripNonNumeric_brlText whole c1 c2 hw h1 h2]
  cases whole with
  | nil => exact absurd rfl hne
  | cons d ds =>
    have hall : ∀ c ∈ ds ++ [c1, c2], isDigit c = true := by
      intro c hc
      rcases List.mem_append.mp hc with hc | hc
      · exact hw c (List.mem_cons_of_mem d hc)
      · simp only [List.mem_cons, List.mem_singleton, List.not_mem_nil, or_false] at hc
        rcases hc with rfl | rfl
        · exact h1
        · exact h2
    have := parseFloat_digits d (ds ++ [c1, c2]) (hw d (List.mem_cons_self d ds)) hall
    rw [List.cons_append, this, ← List.cons_append, digitsValue_append_pair, brlAmount, hfilter]
    congr 1
    push_cast
    ring

/-- The conditions that `isPlainBrl` packs. -/
theorem isPlainBrl_iff (whole : JSString) (c1 c2 : Char) :
    isPlainBrl whole c1 c2 = true ↔
      whole ≠ [] ∧ (∀ c ∈ whole, isDigit c = true) ∧ isDigit c1 = true ∧ isDigit c2 = true := by
  simp [isPlainBrl, and_assoc]

/-- An ascending call of `sortTable` on rows whose cells all read as numbers leaves the first body
sorted by those numbers. -/
theorem sortTable_ascending_sorted (host : Host) (table : Table) (column : JSString)
    (rows : List Row) (rest : List (List Row)) (i : ℕ)
    (hb : table.tbodies = rows :: rest)
    (hi : findIndex (fun th => th.dataSort == some column) table.ths = some i)
    (hasc : table.sortOrder ≠ some "asc".toList)
    (hrows : ∀ row ∈ rows, i < row.cells.length ∧ (cellNumber i row).isNaN = false) :
    (sortTable host table column).state.tbodies =
        arraySort (compareRows host true i) rows :: rest ∧
    (arraySort (compareRows host true i) rows).Pairwise
      (fun a b => JSNum.le (cellNumber i a) (cellNumber i b)) := by
  have hdir : isAscending table = true := by simpa [isAscending] using hasc
  refine ⟨?_, ?_⟩
  · rw [sortTable_tbodies host table column rows rest i hb hi (fun r hr => (hrows r hr).1), hdir]
  · apply pairwise_arraySort _ _ (fun row => (cellNumber i row).isNaN = false)
    · intro a b ha hb'; exact JSNum.le_or_ge _ _ ha hb'
    · intro a b c _ _ _ h1 h2; exact JSNum.le_chain _ _ _ h1 h2
    · intro a b ha hb'
      rw [compareRows_numeric host true i a b ha hb']
      exact JSNum.isPos_sub _ _ ha hb'
    · intro r hr; exact (hrows r hr).2

/-- The bound of `isExactBrl` at its edge: `90071992547409,92` is `2^53` cents and is within the
bound, `90071992547409,93` is not. -/
theorem isExactBrl_edge :
    isExactBrl "90071992547409".toList '9' '2' = true ∧
    isExactBrl "90071992547409".toList '9' '3' = false := by
  refine ⟨?_, ?_⟩ <;> decide

/-- Claim C13, as amended.  The parsing of `sortTable` drops every character other than digits,
`.` and `-` and reads the rest with `parseFloat`: a comma is dropped.  For cell texts `R$ `, a
run of digits, a comma and two digits, without separator of thousands and with an amount of at
most `2^53` cents, the number read is `100` times the amount, and an ascending call leaves a
permutation of the rows in which a row never comes before a row of a smaller amount. -/
theorem sortTable_brl_without_separator (host : Host) (table : Table) (column : JSString)
    (rows : List Row) (rest : List (List Row)) (i : ℕ)
    (hb : table.tbodies = rows :: rest)
    (hi : findIndex (fun th => th.dataSort == some column) table.ths = some i)
    (hasc : table.sortOrder ≠ some "asc".toList)
    (hrows : ∀ row ∈ rows, ∃ (whole : JSString) (c1 c2 : Char),
      isExactBrl whole c1 c2 = true ∧ row.cells[i]? = some (brlText whole c1 c2)) :
    (∀ (row : Row) (whole : JSString) (c1 c2 : Char), isExactBrl whole c1 c2 = true →
      row.cells[i]? = some (brlText whole c1 c2) →
      cellNumber i row = .fin (100 * brlAmount whole c1 c2) ∧
      100 * brlAmount whole c1 c2 ≤ 2 ^ 53) ∧
    ∃ sorted : List Row,
      (sortTable host table column).state.tbodies = sorted :: rest ∧ sorted.Perm rows ∧
      sorted.Pairwise (fun a b =>
        ∀ (wa : JSString) (a1 a2 : Char) (wb : JSString) (b1 b2 : Char),
          isExactBrl wa a1 a2 = true → isExactBrl wb b1 b2 = true →
          a.cells[i]? = some (brlText wa a1 a2) → b.cells[i]? = some (brlText wb b1 b2) →
          brlAmount wa a1 a2 ≤ brlAmount wb b1 b2) := by
  have hnum : ∀ (row : Row) (whole : JSString) (c1 c2 : Char), isExactBrl whole c1 c2 = true →
      row.cells[i]? = some (brlText whole c1 c2) →
      cellNumber i row = .fin (100 * brlAmount whole c1 c2) := by
    intro row whole c1 c2 hexact hcell
    have hplain : isPlainBrl whole c1 c2 = true := by
      simp only [isExactBrl, Bool.and_eq_true] at hexact
      exact hexact.1
    obtain ⟨hne, hw, h1, h2⟩ := (isPlainBrl_iff whole c1 c2).mp hplain
    exact cellNumber_brlText i row whole c1 c2 hne hw h1 h2 hcell
  have hbound : ∀ (whole : JSString) (c1 c2 : Char), isExactBrl whole c1 c2 = true →
      100 * brlAmount whole c1 c2 ≤ 2 ^ 53 := by
    intro whole c1 c2 hexact
    simp only [isExactBrl, Bool.and_eq_true, decide_eq_true_eq] at hexact
    obtain ⟨hplain, hle⟩ := hexact
    obtain ⟨_, hw, _, _⟩ := (isPlainBrl_iff whole c1 c2).mp hplain
    have hfilter : whole.filter isDigit = whole := by
      rw [List.filter_eq_self]
      exact hw
    rw [digitsValue_append_pair] at hle
    have hq : ((100 * digitsValue whole + digitsValue [c1, c2] : ℕ) : ℚ) ≤ ((2 ^ 53 : ℕ) : ℚ) :=
      Nat.cast_le.mpr hle
    rw [brlAmount, hfilter]
    push_cast at hq
    linarith
  have hok : ∀ row ∈ rows, i < row.cells.length ∧ (cellNumber i row).isNaN = false := by
    intro row hrow
    obtain ⟨whole, c1, c2, hexact, hcell⟩ := hrows row hrow
    refine ⟨?_, ?_⟩
    · by_contra hlt
      rw [List.getElem?_eq_none (Nat.le_of_not_lt hlt)] at hcell
      cases hcell
    · rw [hnum row whole c1 c2 hexact hcell]
      rfl
  obtain ⟨hbody, hsorted⟩ := sortTable_ascending_sorted host table column rows rest i hb hi hasc hok
  refine ⟨fun row whole c1 c2 hexact hcell =>
    ⟨hnum row whole c1 c2 hexact hcell, hbound whole c1 c2 hexact⟩,
    _, hbody, perm_arraySort _ _, ?_⟩
  refine hsorted.imp ?_
  intro a b hle wa a1 a2 wb b1 b2 hpa hpb hca hcb
  rw [hnum a wa a1 a2 hpa hca, hnum b wb b1 b2 hpb hcb] at hle
  have h : 100 * brlAmount wa a1 a2 ≤ 100 * brlAmount wb b1 b2 := hle
  linarith

/-- The table of three prices below a thousand: the ascending call sorts it by amount. -/
theorem sortTable_brl_without_separator_witness :
    ∃ sorted : List Row,
      (sortTable asciiHost pricesTable "valor".toList).state.tbodies = sorted :: [] ∧
      sorted.Perm [rowOf "R$ 100,00", rowOf "R$ 20,00", rowOf "R$ 5,00"] ∧
      sorted.Pairwise (fun a b =>
        ∀ (wa : JSString) (a1 a2 : Char) (wb : JSString) (b1 b2 : Char),
          isExactBrl wa a1 a2 = true → isExactBrl wb b1 b2 = true →
          a.cells[0]? = some (brlText wa a1 a2) → b.cells[0]? = some (brlText wb b1 b2) →
          brlAmount wa a1 a2 ≤ brlAmount wb b1 b2) :=
  (sortTable_brl_without_separator asciiHost pricesTable "valor".toList
    [rowOf "R$ 100,00", rowOf "R$ 20,00", rowOf "R$ 5,00"] [] 0 rfl (by decide) (by decide)
    (by
      intro row hrow
      simp only [List.mem_cons, List.mem_singleton, List.not_mem_nil, or_false] at hrow
      rcases hrow with rfl | rfl | rfl
      · exact ⟨"100".toList, '0', '0', by decide, by decide⟩
      · exact ⟨"20".toList, '0', '0', by decide, by decide⟩
      · exact ⟨"5".toList, '0', '0', by decide, by decide⟩)).2

/-- Claim C13, as stated, fails with a separator of thousands.  The texts `R$ 5,00` and
`R$ 1.234,56` are in the format of the Real and denote `5` and `1234.56`; the numbers read in
them are `500` and `1.23456`, and the ascending call on the table that holds them in the order of
the amounts puts `R$ 1.234,56` before `R$ 5,00`. -/
theorem sortTable_thousands_separator :
    "R$ 5,00".toList = brlText "5".toList '0' '0' ∧
    "R$ 1.234,56".toList = brlText "1.234".toList '5' '6' ∧
    brlAmount "5".toList '0' '0' = 5 ∧
    brlAmount "1.234".toList '5' '6' = 1234.56 ∧
    brlAmount "5".toList '0' '0' < brlAmount "1.234".toList '5' '6' ∧
    cellNumber 0 (rowOf "R$ 5,00") = .fin 500 ∧
    cellNumber 0 (rowOf "R$ 1.234,56") = .fin 1.23456 ∧
    thousandsTable.sortOrder ≠ some "asc".toList ∧
    (sortTable asciiHost thousandsTable "valor".toList).state.tbodies =
      [[rowOf "R$ 1.234,56", rowOf "R$ 5,00"]] := by
  have a5 : brlAmount "5".toList '0' '0' = 5 := by
    simp [brlAmount, digitsValue, isDigit]
  have a1234 : brlAmount "1.234".toList '5' '6' = 1234.56 := by
    simp [brlAmount, digitsValue, isDigit]
    norm_num
  have n5 : cellNumber 0 (rowOf "R$ 5,00") = .fin 500 := by
    simp [cellNumber, cellValue, rowOf, trim, parseFloat, stripNonNumeric, parseUnsigned, isDigit,
      isJSWhiteSpace, digitsValue, exponentPart]
  have n1234 : cellNumber 0 (rowOf "R$ 1.234,56") = .fin 1.23456 := by
    simp [cellNumber, cellValue, rowOf, trim, parseFloat, stripNonNumeric, parseUnsigned, isDigit,
      isJSWhiteSpace, digitsValue, exponentPart]
    norm_num
  refine ⟨rfl, rfl, a5, a1234, by rw [a5, a1234]; norm_num, n5, n1234, by decide, ?_⟩
  rw [sortTable_tbodies asciiHost thousandsTable "valor".toList _ [] 0 rfl (by decide)
    (by decide)]
  have c1 := compareRows_numeric asciiHost true 0 (rowOf "R$ 5,00") (rowOf "R$ 1.234,56")
    (by rw [n5]; rfl) (by rw [n1234]; rfl)
  rw [n5, n1234] at c1
  have e : isAscending thousandsTable = true := by decide
  rw [e]
  simp [arraySort, sortedInsert, c1, JSNum.sub, JSNum.add, JSNum.neg, JSNum.isPos]
  norm_num

/-! ## The statistics cards: a card without heading -/

/-- A call of `animateNumber` with a text that does not parse changes nothing. -/
theorem animateCounter_nan (now : ℚ) (counter : Counter) (finalValue : JSString)
    (h : (parseFloat (stripNonNumeric finalValue)).isNaN = true) :
    animateCounter now counter finalValue = counter := by
  simp [animateCounter, animateNumber, h]

/-- A call of `animateNumber` with a text that parses requests a frame and leaves the text. -/
theorem animateCounter_number (now : ℚ) (counter : Counter) (finalValue : JSString)
    (h : (parseFloat (stripNonNumeric finalValue)).isNaN = false) :
    animateCounter now counter finalValue = { counter with frameRequested := true } := by
  simp [animateCounter, animateNumber, h]

/-- One turn of the loop of `updateStatistics` on a card that has an `h3`. -/
theorem updateStatistics_cons_some (now : ℚ) (h3 : Counter) (card : StatCard)
    (rest : List StatCard) (hh : card.h3 = some h3) :
    updateStatistics now (card :: rest) =
      ⟨{ h3 := some (animateCounter now h3 h3.textContent) } :: (updateStatistics now rest).state,
        (updateStatistics now rest).threw⟩ := by
  rw [updateStatistics]
  simp only [hh]

/-- When every card has an `h3`, `updateStatistics` does not throw and calls `animateNumber` on
the `h3` of each card with its own text. -/
theorem updateStatistics_all_h3 (now : ℚ) (cards : List StatCard)
    (h : ∀ card ∈ cards, card.h3.isSome = true) :
    (updateStatistics now cards).threw = false ∧
    (updateStatistics now cards).state =
      cards.map (fun card =>
        { h3 := card.h3.map (fun h3 => animateCounter now h3 h3.textContent) }) := by
  induction cards with
  | nil => exact ⟨rfl, rfl⟩
  | cons card rest ih =>
    obtain ⟨ih1, ih2⟩ := ih (fun c hc => h c (List.mem_cons_of_mem card hc))
    have hcard := h card (List.mem_cons_self card rest)
    cases hh : card.h3 with
    | none => rw [hh] at hcard; cases hcard
    | some h3 =>
      rw [updateStatistics_cons_some now h3 card rest hh]
      refine ⟨ih1, ?_⟩
      show _ :: (updateStatistics now rest).state = _
      rw [ih2, List.map_cons, hh]
      rfl

/-- A card whose text does not parse is left as it was, while the cards before and after it are
handled as if it were not there, as long as every card has its `h3`. -/
theorem updateStatistics_unparseable_card (now : ℚ) (before after : List StatCard) (h3 : Counter)
    (hb : ∀ card ∈ before, card.h3.isSome = true) (ha : ∀ card ∈ after, card.h3.isSome = true)
    (hnan : (parseFloat (stripNonNumeric h3.textContent)).isNaN = true) :
    (updateStatistics now (before ++ { h3 := some h3 } :: after)).threw = false ∧
    (updateStatistics now (before ++ { h3 := some h3 } :: after)).state =
      (updateStatistics now before).state ++ { h3 := some h3 } ::
        (updateStatistics now after).state := by
  have hall : ∀ card ∈ before ++ ({ h3 := some h3 } : StatCard) :: after,
      card.h3.isSome = true := by
    intro card hc
    rcases List.mem_append.mp hc with hc | hc
    · exact hb card hc
    · rcases List.mem_cons.mp hc with rfl | hc
      · rfl
      · exact ha card hc
  obtain ⟨h1, h2⟩ := updateStatistics_all_h3 now _ hall
  refine ⟨h1, ?_⟩
  rw [h2, (updateStatistics_all_h3 now before hb).2, (updateStatistics_all_h3 now after ha).2,
    List.map_append, List.map_cons]
  simp only [Option.map_some', animateCounter_nan now h3 h3.textContent hnan]

/-- A card without `h3` makes `updateStatistics` throw; the cards before it have been handled and
the cards after it are as they were. -/
theorem updateStatistics_throws (now : ℚ) (before after : List StatCard)
    (hb : ∀ card ∈ before, card.h3.isSome = true) :
    (updateStatistics now (before ++ { h3 := none } :: after)).threw = true ∧
    (updateStatistics now (before ++ { h3 := none } :: after)).state =
      (updateStatistics now before).state ++ { h3 := none } :: after := by
  induction before with
  | nil => exact ⟨rfl, rfl⟩
  | cons card rest ih =>
    obtain ⟨ih1, ih2⟩ := ih (fun c hc => hb c (List.mem_cons_of_mem card hc))
    have hcard := hb card (List.mem_cons_self card rest)
    cases hh : card.h3 with
    | none => rw [hh] at hcard; cases hcard
    | some h3 =>
      rw [List.cons_append, updateStatistics_cons_some now h3 card _ hh,
        updateStatistics_cons_some now h3 card rest hh]
      refine ⟨ih1, ?_⟩
      show _ :: (updateStatistics now (rest ++ { h3 := none } :: after)).state = _
      rw [ih2]
      rfl

/-- Claim C14, at a card without `h3`.  The page has a card without `h3` followed by a card whose
`h3` shows `42`.  `updateStatistics` throws at the first card, and the second card is as before:
no frame is requested for it.  Had the first card an `h3` with the text `N/A`, the call would
return and the second card would be animated. -/
theorem updateStatistics_card_without_h3 (now : ℚ) :
    (updateStatistics now [cardWithoutH3, cardOf "42"]).threw = true ∧
    (updateStatistics now [cardWithoutH3, cardOf "42"]).state = [cardWithoutH3, cardOf "42"] ∧
    (updateStatistics now [cardOf "N/A", cardOf "42"]).threw = false ∧
    (updateStatistics now [cardOf "N/A", cardOf "42"]).state =
      [cardOf "N/A", animatedCardOf "42"] := by
  have h42 : (parseFloat (stripNonNumeric "42".toList)).isNaN = false := by
    simp [parseFloat, stripNonNumeric, parseUnsigned, isDigit, isJSWhiteSpace, digitsValue,
      exponentPart, JSNum.isNaN]
  have hna : (parseFloat (stripNonNumeric "N/A".toList)).isNaN = true := by decide
  refine ⟨rfl, rfl, rfl, ?_⟩
  rw [updateStatistics_cons_some now _ (cardOf "N/A") _ rfl,
    updateStatistics_cons_some now _ (cardOf "42") _ rfl]
  show [_, _] = _
  rw [animateCounter_nan now _ _ hna, animateCounter_number now _ _ h42]
  rfl

/-! ## The table sort: the direction of successive calls -/

/-- A call of `sortTable` on rows whose cells all read as numbers leaves in the first body a
permutation of the rows, sorted by those numbers in the direction the call has taken. -/
theorem sortTable_sorted_in_direction (host : Host) (table : Table) (column : JSString)
    (rows : List Row) (rest : List (List Row)) (i : ℕ)
    (hb : table.tbodies = rows :: rest)
    (hi : findIndex (fun th => th.dataSort == some column) table.ths = some i)
    (hrows : ∀ row ∈ rows, i < row.cells.length ∧ (cellNumber i row).isNaN = false) :
    ∃ sorted : List Row,
      (sortTable host table column).state.tbodies = sorted :: rest ∧ sorted.Perm rows ∧
      (isAscending table = true →
        sorted.Pairwise (fun a b => JSNum.le (cellNumber i a) (cellNumber i b))) ∧
      (isAscending table = false →
        sorted.Pairwise (fun a b => JSNum.le (cellNumber i b) (cellNumber i a))) := by
  refine ⟨_, sortTable_tbodies host table column rows rest i hb hi (fun r hr => (hrows r hr).1),
    perm_arraySort _ _, ?_, ?_⟩
  · intro hdir
    rw [hdir]
    apply pairwise_arraySort _ _ (fun row => (cellNumber i row).isNaN = false)
    · intro a b ha hb'; exact JSNum.le_or_ge _ _ ha hb'
    · intro a b c _ _ _ h1 h2; exact JSNum.le_chain _ _ _ h1 h2
    · intro a b ha hb'
      rw [compareRows_numeric host true i a b ha hb']
      exact JSNum.isPos_sub _ _ ha hb'
    · intro r hr; exact (hrows r hr).2
  · intro hdir
    rw [hdir]
    apply pairwise_arraySort _ _ (fun row => (cellNumber i row).isNaN = false)
    · intro a b ha hb'; exact JSNum.le_or_ge _ _ hb' ha
    · intro a b c _ _ _ h1 h2; exact JSNum.le_chain _ _ _ h2 h1
    · intro a b ha hb'
      rw [compareRows_numeric host false i a b ha hb']
      exact JSNum.isPos_sub _ _ hb' ha
    · intro r hr; exact (hrows r hr).2

/-- Claim C3, as stated, fails on a table without `tbody`.  The table has a header with the key
`valor` and no `tbody`: the call throws at `tbody.querySelectorAll` before it reads or writes the
stored order, the table is as before, and so the call after it finds the direction the first call
found, not the opposite one; after two calls no order is stored. -/
theorem sortTable_without_tbody :
    (∃ th ∈ headerOnlyTable.ths, th.dataSort = some "valor".toList) ∧
    (sortTable asciiHost headerOnlyTable "valor".toList).threw = true ∧
    (sortTable asciiHost headerOnlyTable "valor".toList).state = headerOnlyTable ∧
    isAscending (sortTableAll asciiHost headerOnlyTable ["valor".toList]) =
      isAscending headerOnlyTable ∧
    (sortTableAll asciiHost headerOnlyTable ["valor".toList, "valor".toList]).sortOrder = none := by
  refine ⟨⟨valorHeader, by simp [headerOnlyTable], rfl⟩, rfl, rfl, rfl, rfl⟩

/-- Claim C3, as amended: on a table that has a `tbody`.  For every sequence of calls of
`sortTable` on columns that have a matching header, the directions alternate with period 2.  The
call number `k` (from `0`) reads the direction `table.dataset.sortOrder !== 'asc'` from the state
the calls before it left: that direction is the one of the first call when `k` is even and the
opposite one when `k` is odd.  The call stores `asc` when it is ascending and `desc` otherwise,
and, when the cells of the column all read as numbers, it leaves the rows of the first body
non-decreasing when it is ascending and non-increasing when it is descending. -/
theorem sortTable_direction_alternates (host : Host) (table : Table) (columns : List JSString)
    (hbody : table.tbodies ≠ [])
    (hcols : ∀ c ∈ columns, ∃ th ∈ table.ths, th.dataSort = some c) :
    ∀ (k : ℕ) (hk : k < columns.length),
      isAscending (sortTableAll host table (columns.take k)) =
        (if k % 2 = 0 then isAscending table else !isAscending table) ∧
      (sortTableAll host table (columns.take (k + 1))).sortOrder =
        some (if isAscending (sortTableAll host table (columns.take k)) then "asc".toList
          else "desc".toList) ∧
      ∀ (rows : List Row) (rest : List (List Row)) (i : ℕ),
        (sortTableAll host table (columns.take k)).tbodies = rows :: rest →
        findIndex (fun th => th.dataSort == some columns[k])
          (sortTableAll host table (columns.take k)).ths = some i →
        (∀ row ∈ rows, i < row.cells.length ∧ (cellNumber i row).isNaN = false) →
        ∃ sorted : List Row,
          (sortTableAll host table (columns.take (k + 1))).tbodies = sorted :: rest ∧
          sorted.Perm rows ∧
          (isAscending (sortTableAll host table (columns.take k)) = true →
            sorted.Pairwise (fun a b => JSNum.le (cellNumber i a) (cellNumber i b))) ∧
          (isAscending (sortTableAll host table (columns.take k)) = false →
            sorted.Pairwise (fun a b => JSNum.le (cellNumber i b) (cellNumber i a))) := by
  have step : ∀ k (hk : k < columns.length),
      sortTableAll host table (columns.take (k + 1)) =
        (sortTable host (sortTableAll host table (columns.take k)) columns[k]).state ∧
      ∃ i, findIndex (fun th => th.dataSort == some columns[k])
        (sortTableAll host table (columns.take k)).ths = some i := by
    intro k hk
    refine ⟨?_, ?_⟩
    · rw [List.take_succ, List.getElem?_eq_getElem hk]
      exact sortTableAll_append host table _ _
    · rw [findSortHeader_congr _ _ _ (sortTableAll_invariant host _ table hbody).2]
      exact findSortHeader_isSome _ _ (hcols _ (List.getElem_mem hk))
  have flags : ∀ k, k < columns.length →
      isAscending (sortTableAll host table (columns.take k)) =
        (if k % 2 = 0 then isAscending table else !isAscending table) := by
    intro k
    induction k with
    | zero => intro _; simp [sortTableAll]
    | succ k ih =>
      intro hk
      have hprev := ih (Nat.lt_of_succ_lt hk)
      obtain ⟨h0, j, hj⟩ := step k (Nat.lt_of_succ_lt hk)
      rw [h0, isAscending_sortTable host _ _ j (sortTableAll_invariant host _ table hbody).1 hj,
        hprev]
      rcases Nat.mod_two_eq_zero_or_one k with h | h
      · have : (k + 1) % 2 = 1 := by omega
        simp [h, this]
      · have : (k + 1) % 2 = 0 := by omega
        simp [h, this]
  intro k hk
  obtain ⟨h1, i, hi⟩ := step k hk
  refine ⟨flags k hk, ?_, ?_⟩
  · rw [h1]
    exact sortTable_sortOrder host _ _ i (sortTableAll_invariant host _ table hbody).1 hi
  · intro rows rest j hrows hj hcells
    rw [h1]
    exact sortTable_sorted_in_direction host _ _ rows rest j hrows hj hcells

/-- Three calls on the column `valor` of the table of prices: the third call has the direction of
the first. -/
theorem sortTable_direction_alternates_witness :
    isAscending (sortTableAll asciiHost pricesTable
        (["valor".toList, "valor".toList, "valor".toList].take 2)) =
      (if 2 % 2 = 0 then isAscending pricesTable else !isAscending pricesTable) :=
  (sortTable_direction_alternates asciiHost pricesTable
    ["valor".toList, "valor".toList, "valor".toList] (by decide)
    (by
      intro c hc
      simp only [List.mem_cons, List.mem_singleton, List.not_mem_nil, or_false, or_self] at hc
      subst hc
      exact ⟨valorHeader, by simp [pricesTable], rfl⟩)
    2 (by decide)).1

end NeuroSystem
